import Mathlib

set_option maxHeartbeats 1000000

/-! Shallow embedding of the endpoint-slice reconciliation engine described in
spec.md.  The engine itself (AddressClassifier, DesiredStateBuilder,
SlicePacker, Differ, Reconciler and the subset repacking helper) is repository
code that is not included under src/ — only its test harness
(src/unnamed/part_002: `TestReconcile`, `expectEndpointSlices`,
`expectMatchingAddresses`, `portsMatch`) is — so every definition below is
modelled from the spec (§3, §4.1–§4.6), with behaviour pinned by the test
cases of part_002 where the spec is silent.  The model is deterministic where
the Go implementation iterates over maps in unspecified order. -/

/-- Address family tag (spec §4.1, §9: a tagged enum threaded through
partition keys). -/
inductive AddressType where
  | IPv4
  | IPv6
deriving DecidableEq

/-- Port descriptor of a subset (spec §3: name, number, protocol, optional
application protocol).  The number is an `Int` because the repacking helper
uses a sentinel port number `-1` for subsets with no ports. -/
structure Port where
  name : String
  port : Int
  protocol : String
  appProtocol : Option String
deriving DecidableEq

/-- Address entry of a subset (spec §3: IP string, optional hostname, optional
node reference; the empty hostname models Go's zero value). -/
structure EndpointAddress where
  ip : String
  hostname : String
  nodeName : Option String
deriving DecidableEq

/-- One subset of the EndpointSet: ports crossed with ready and not-ready
addresses (spec §3). -/
structure EndpointSubset where
  ports : List Port
  addresses : List EndpointAddress
  notReadyAddresses : List EndpointAddress
deriving DecidableEq

/-- The legacy EndpointSet resource (spec §3).  Labels and annotations are
association lists modelling string maps; `deletionPending` models a set
deletion timestamp (part_002 lines 1310-1313). -/
structure Endpoints where
  name : String
  labels : List (String × String)
  annotations : List (String × String)
  deletionPending : Bool
  subsets : List EndpointSubset
deriving DecidableEq

/-- Normalized desired endpoint (spec §3 DesiredEndpoint: address, ready flag,
optional hostname and node reference). -/
structure DesiredEndpoint where
  ip : String
  ready : Bool
  hostname : Option String
  nodeName : Option String
deriving DecidableEq

/-- Endpoint entry of a slice object.  Input slices may carry several
addresses per entry; the engine always writes exactly one (spec §3). -/
structure SliceEndpoint where
  addresses : List String
  ready : Bool
  hostname : Option String
  nodeName : Option String
deriving DecidableEq

/-- A slice object (spec §3: identity, owner labels, mirrored annotations, an
address family, a port list and endpoint entries). -/
structure Slice where
  name : String
  labels : List (String × String)
  annotations : List (String × String)
  addressType : AddressType
  ports : List Port
  endpoints : List SliceEndpoint
deriving DecidableEq

/-- Boolean list membership via decidable equality (used by the model so that
every predicate stays executable). -/
def memB {α : Type} [DecidableEq α] (x : α) (l : List α) : Bool :=
  l.any (fun y => decide (y = x))

def dotChar : Char := '.'

def colonChar : Char := ':'

/-- Splits a character list on a separator, keeping empty segments (so that
"a..b" yields three segments). -/
def splitOnChar (sep : Char) : List Char → List (List Char)
  | [] => [[]]
  | c :: rest =>
    let r := splitOnChar sep rest
    if c = sep then [] :: r
    else
      match r with
      | [] => [[c]]
      | g :: gs => (c :: g) :: gs

/-- Decimal value of a digit list. -/
def decValue (cs : List Char) : Nat :=
  cs.foldl (fun a c => a * 10 + (c.toNat - 48)) 0

/-- One dotted-quad octet: one to three decimal digits with value at most
255. -/
def isIPv4Octet (cs : List Char) : Bool :=
  decide (cs ≠ []) && decide (cs.length ≤ 3) && cs.all (fun c => c.isDigit)
    && decide (decValue cs ≤ 255)

/-- Dotted-quad IPv4 recognizer. -/
def isIPv4 (cs : List Char) : Bool :=
  let parts := splitOnChar dotChar cs
  decide (parts.length = 4) && parts.all isIPv4Octet

def isHexChar (c : Char) : Bool :=
  c.isDigit || (decide ('a' ≤ c) && decide (c ≤ 'f'))
    || (decide ('A' ≤ c) && decide (c ≤ 'F'))

/-- One group of a colon-separated IPv6 literal: at most four hexadecimal
digits; an empty group models the "::" compression. -/
def isIPv6Group (cs : List Char) : Bool :=
  decide (cs.length ≤ 4) && cs.all isHexChar

/-- Colon-separated IPv6 recognizer. -/
def isIPv6 (cs : List Char) : Bool :=
  let parts := splitOnChar colonChar cs
  decide (3 ≤ parts.length) && decide (parts.length ≤ 9) && parts.all isIPv6Group

/-- Modelled from the spec: AddressClassifier (§4.1) — a pure total function
from an address string to its family or `none` for invalid.  The spec does
not give the exact IP grammar; this model accepts dotted-quad IPv4 and
colon-separated hexadecimal IPv6, which classifies every address literal
appearing in the tests of part_002 the way those tests expect. -/
def getAddressType (s : String) : Option AddressType :=
  let cs := s.data
  if isIPv4 cs then some AddressType.IPv4
  else if isIPv6 cs then some AddressType.IPv6
  else none

/-- First-match lookup in an association list (the model of Go string maps). -/
def lookupKV (k : String) : List (String × String) → Option String
  | [] => none
  | kv :: rest => if kv.1 = k then some kv.2 else lookupKV k rest

/-- Inserts or replaces a key in an association list (force-set of
controller-owned labels, spec §4.4). -/
def upsertKV (l : List (String × String)) (k v : String) : List (String × String) :=
  if l.any (fun kv => decide (kv.1 = k)) then
    l.map (fun kv => if kv.1 = k then (k, v) else kv)
  else l ++ [(k, v)]

/-- Extensional equality of two association lists viewed as maps: every key of
either list looks up equal (models Go map deep-equality in the Differ's no-op
check, spec §4.4). -/
def mapEqB (a b : List (String × String)) : Bool :=
  (a.map Prod.fst ++ b.map Prod.fst).all (fun k => decide (lookupKV k a = lookupKV k b))

/-- Generic first-encounter deduplication with an accumulator. -/
def dedupLoop {α : Type} [DecidableEq α] (acc : List α) : List α → List α
  | [] => acc
  | x :: rest => if memB x acc then dedupLoop acc rest else dedupLoop (acc ++ [x]) rest

/-- Generic deduplication keeping one representative per `eqv`-class, in
first-encounter order (models collapsing Go map keys). -/
def dedupBy {α : Type} (eqv : α → α → Bool) (acc : List α) : List α → List α
  | [] => acc
  | x :: rest =>
    if acc.any (fun y => eqv y x) then dedupBy eqv acc rest
    else dedupBy eqv (acc ++ [x]) rest

def listJoinMap {α β : Type} (f : α → List β) (l : List α) : List β :=
  (l.map f).flatten

/-- Modelled from the spec: the sentinel port used by the repacking helper for
subsets that declare no ports (the repository's RepackSubsets, not under
src/, uses port number -1 for this purpose; its effect is pinned by the tests
of part_002). -/
def sentinelPort : Port := { name := "", port := -1, protocol := "", appProtocol := none }

/-- Ports of a subset as seen by the repacking helper: the sentinel stands in
when the subset declares none. -/
def subsetPorts (s : EndpointSubset) : List Port :=
  if s.ports.isEmpty then [sentinelPort] else s.ports

/-- Address/readiness pairs of a subset in encounter order: ready addresses
first, then not-ready ones (spec §4.2). -/
def subsetPairs (s : EndpointSubset) : List (EndpointAddress × Bool) :=
  s.addresses.map (fun a => (a, true)) ++ s.notReadyAddresses.map (fun a => (a, false))

/-- Inserts an address/readiness pair into an address set: a re-encountered
address keeps its position and takes the new readiness flag (models Go map
assignment keyed by the address). -/
def upsertPair (acc : List (EndpointAddress × Bool)) (x : EndpointAddress × Bool) :
    List (EndpointAddress × Bool) :=
  if acc.any (fun y => decide (y.1 = x.1)) then
    acc.map (fun y => if y.1 = x.1 then (y.1, x.2) else y)
  else acc ++ [x]

def collectLoop (acc : List (EndpointAddress × Bool)) :
    List (EndpointAddress × Bool) → List (EndpointAddress × Bool)
  | [] => acc
  | x :: rest => collectLoop (upsertPair acc x) rest

/-- Deduplicated address set of a pair list, keyed by the address value. -/
def collectPairs (l : List (EndpointAddress × Bool)) : List (EndpointAddress × Bool) :=
  collectLoop [] l

/-- All distinct port values appearing across the subsets, in first-encounter
order. -/
def allPorts (subsets : List EndpointSubset) : List Port :=
  dedupLoop [] (listJoinMap subsetPorts subsets)

/-- Modelled from the spec: the set of address/readiness pairs offered on a
given port, collected across every subset whose port list contains it (the
repacking helper's port-to-address-set map; pinned by part_002 lines
419-481). -/
def addrSetFor (subsets : List EndpointSubset) (p : Port) : List (EndpointAddress × Bool) :=
  collectPairs (listJoinMap subsetPairs (subsets.filter (fun s => memB p (subsetPorts s))))

/-- Ports that actually offer at least one address; ports of address-less
subsets vanish during repacking (pinned by the "Endpoints with no addresses"
test case). -/
def activePorts (subsets : List EndpointSubset) : List Port :=
  (allPorts subsets).filter (fun p => !(addrSetFor subsets p).isEmpty)

/-- Set-equality of two address sets (order-insensitive, as Go compares the
stringified key of an address set). -/
def pairSetEq (a b : List (EndpointAddress × Bool)) : Bool :=
  a.all (fun x => memB x b) && b.all (fun x => memB x a)

/-- The distinct address sets, one representative per set, in first-encounter
order over the active ports. -/
def groupKeys (subsets : List EndpointSubset) : List (List (EndpointAddress × Bool)) :=
  dedupBy pairSetEq [] ((activePorts subsets).map (addrSetFor subsets))

/-- Ports of the merged subset for one address set: every active port offering
exactly that address set, with the sentinel filtered back out. -/
def groupPorts (subsets : List EndpointSubset) (S : List (EndpointAddress × Bool)) : List Port :=
  ((activePorts subsets).filter (fun p => pairSetEq (addrSetFor subsets p) S)).filter
    (fun p => decide (p.port > -1))

/-- Modelled from the spec: subset merging before partitioning (spec §3 says
subsets with identical port sets are merged; the repository's RepackSubsets
— imported by the test as endpointsv1.RepackSubsets but not under src/ —
groups ports by the set of addresses offering them, which the test cases at
part_002 lines 419-481 pin: the identical-port-set merge is the special case
where all ports share one address set). -/
def repackSubsets (subsets : List EndpointSubset) : List EndpointSubset :=
  (groupKeys subsets).map (fun S =>
    { ports := groupPorts subsets S
      addresses := (S.filter (fun x => x.2)).map Prod.fst
      notReadyAddresses := (S.filter (fun x => !x.2)).map Prod.fst })

/-- Desired endpoint derived from one address entry (an empty hostname becomes
`none`). -/
def toDesired (a : EndpointAddress) (r : Bool) : DesiredEndpoint :=
  { ip := a.ip, ready := r
    hostname := if a.hostname = "" then none else some a.hostname
    nodeName := a.nodeName }

/-- State of the desired-state builder over one merged subset: one bucket and
one seen-address list per family, plus the skipped-address counter
(spec §4.2). -/
structure BState where
  v4 : List DesiredEndpoint
  v6 : List DesiredEndpoint
  s4 : List String
  s6 : List String
  skipped : Nat
deriving DecidableEq

/-- Modelled from the spec: one step of the DesiredStateBuilder (§4.2) —
classify the address; drop invalid ones counting them; de-duplicate by
address with the first occurrence winning, silently; drop addresses beyond
the per-family cap, counting each distinct dropped address once. -/
def stepPair (cap : Nat) (st : BState) (x : EndpointAddress × Bool) : BState :=
  match getAddressType x.1.ip with
  | none => { st with skipped := st.skipped + 1 }
  | some AddressType.IPv4 =>
    if memB x.1.ip st.s4 then st
    else if st.v4.length < cap then
      { st with v4 := st.v4 ++ [toDesired x.1 x.2], s4 := st.s4 ++ [x.1.ip] }
    else { st with s4 := st.s4 ++ [x.1.ip], skipped := st.skipped + 1 }
  | some AddressType.IPv6 =>
    if memB x.1.ip st.s6 then st
    else if st.v6.length < cap then
      { st with v6 := st.v6 ++ [toDesired x.1 x.2], s6 := st.s6 ++ [x.1.ip] }
    else { st with s6 := st.s6 ++ [x.1.ip], skipped := st.skipped + 1 }

def buildLoop (cap : Nat) : List (EndpointAddress × Bool) → BState → BState
  | [], st => st
  | x :: rest, st => buildLoop cap rest (stepPair cap st x)

/-- Desired-state builder over one merged subset: iterates the ready addresses
then the not-ready ones (spec §4.2). -/
def buildSubset (cap : Nat) (s : EndpointSubset) : BState :=
  buildLoop cap (subsetPairs s) { v4 := [], v6 := [], s4 := [], s6 := [], skipped := 0 }

def bucketOf (st : BState) : AddressType → List DesiredEndpoint
  | AddressType.IPv4 => st.v4
  | AddressType.IPv6 => st.v6

/-- Family-matching valid addresses of a pair list, in encounter order (the
specification-side description of what the builder keeps before
de-duplication and capping). -/
def famFilter (fam : AddressType) : List (EndpointAddress × Bool) → List DesiredEndpoint
  | [] => []
  | x :: rest =>
    if getAddressType x.1.ip = some fam then toDesired x.1 x.2 :: famFilter fam rest
    else famFilter fam rest

/-- First-occurrence-wins de-duplication by IP, seeded with already-seen
addresses (the specification-side description of the builder's dedupe
stage). -/
def dedupeFrom (seen : List String) : List DesiredEndpoint → List DesiredEndpoint
  | [] => []
  | d :: rest =>
    if memB d.ip seen then dedupeFrom seen rest
    else d :: dedupeFrom (seen ++ [d.ip]) rest

/-- Count of syntactically invalid addresses in a pair list (spec §4.2 and
§7(a): each is dropped and counted, never fatal). -/
def invalidCount : List (EndpointAddress × Bool) → Nat
  | [] => 0
  | x :: rest => (if getAddressType x.1.ip = none then 1 else 0) + invalidCount rest

/-- The uncapped desired list of one merged subset for one family: valid
addresses of that family in encounter order (ready before not-ready),
de-duplicated first-occurrence-wins. -/
def uncappedBucket (fam : AddressType) (s : EndpointSubset) : List DesiredEndpoint :=
  dedupeFrom [] (famFilter fam (subsetPairs s))

/-- One desired partition: the (port-set, family) key with its ordered desired
endpoints (spec §3 DesiredPartition). -/
structure Partition where
  ports : List Port
  family : AddressType
  eps : List DesiredEndpoint
deriving DecidableEq

/-- Partitions contributed by one merged subset: one per family with a
non-empty bucket. -/
def subsetPartitions (cap : Nat) (s : EndpointSubset) : List Partition :=
  let st := buildSubset cap s
  (if st.v4.isEmpty then [] else [{ ports := s.ports, family := AddressType.IPv4, eps := st.v4 }])
    ++ (if st.v6.isEmpty then [] else [{ ports := s.ports, family := AddressType.IPv6, eps := st.v6 }])

/-- Modelled from the spec: the DesiredStateBuilder's output map (§4.2) as an
ordered list of partitions. -/
def desiredPartitions (e : Endpoints) (cap : Nat) : List Partition :=
  listJoinMap (subsetPartitions cap) (repackSubsets e.subsets)

/-- Total skipped-address count of one build (spec §4.2's skipCount). -/
def skippedCount (e : Endpoints) (cap : Nat) : Nat :=
  ((repackSubsets e.subsets).map (fun s => (buildSubset cap s).skipped)).sum

def lastAppliedKey : String := "kubectl.kubernetes.io/last-applied-configuration"

def triggerTimeKey : String := "endpoints.kubernetes.io/last-change-trigger-time"

def serviceNameLabel : String := "kubernetes.io/service-name"

def managedByLabel : String := "endpointslice.kubernetes.io/managed-by"

def controllerName : String := "endpointslice-mirroring-controller.k8s.io"

/-- Labels written on every owned slice: the source labels with the
service-name and managed-by ownership labels force-set (spec §4.4). -/
def mirroredLabels (e : Endpoints) : List (String × String) :=
  upsertKV (upsertKV e.labels serviceNameLabel e.name) managedByLabel controllerName

/-- Annotations mirrored from the source: everything except the
last-applied-configuration and last-change-trigger-time keys (spec §4.4,
pinned by part_002 lines 1186-1296 and 1401-1418). -/
def mirroredAnnotations (e : Endpoints) : List (String × String) :=
  e.annotations.filter (fun kv =>
    !(decide (kv.1 = lastAppliedKey)) && !(decide (kv.1 = triggerTimeKey)))

def toSliceEndpoint (d : DesiredEndpoint) : SliceEndpoint :=
  { addresses := [d.ip], ready := d.ready, hostname := d.hostname, nodeName := d.nodeName }

/-- The canonical slice payload for one partition (spec §4.4: the full
endpoint list, port list, labels and mirrored annotations are recomputed). -/
def sliceFor (e : Endpoints) (P : Partition) (nm : String) : Slice :=
  { name := nm, labels := mirroredLabels e, annotations := mirroredAnnotations e
    addressType := P.family, ports := P.ports
    endpoints := P.eps.map toSliceEndpoint }

/-- Matching key of an existing slice against a partition: same family and the
same port set regardless of order (spec §4.3: existing slices that already
serve that (port-set, family) pair). -/
def keyMatchB (P : Partition) (s : Slice) : Bool :=
  decide (s.addressType = P.family) && decide (List.Perm P.ports s.ports)

/-- No-op test of the Differ (spec §4.4): endpoints, ports, labels and
mirrored annotations must all be identical. -/
def samePayload (a b : Slice) : Bool :=
  decide (a.addressType = b.addressType) && decide (a.ports = b.ports)
    && decide (a.endpoints = b.endpoints)
    && mapEqB a.labels b.labels && mapEqB a.annotations b.annotations

/-- Returns the first existing slice matching the partition's key, and the
remaining slices. -/
def pickFirst (P : Partition) : List Slice → Option Slice × List Slice
  | [] => (none, [])
  | s :: rest =>
    if keyMatchB P s then (some s, rest)
    else
      let r := pickFirst P rest
      (r.1, s :: r.2)

/-- A store write operation (spec §6: create, update, delete). -/
inductive Op where
  | create (s : Slice)
  | update (s : Slice)
  | del (nm : String)
deriving DecidableEq

def freshName (e : Endpoints) (i : Nat) : String :=
  e.name ++ "-" ++ toString i

/-- Modelled from the spec: the packing/diffing core (§4.3, §4.4) — walk the
partitions in order, reuse the first existing slice serving the same
(port-set, family) key (no-op when the recomputed payload is identical,
update otherwise), create a fresh slice when none matches, and delete every
existing slice left serving no partition.  Returns the issued operations and
the resulting stored slices. -/
def buildResults (e : Endpoints) : List Partition → List Slice → Nat → List Op × List Slice
  | [], existing, _ => (existing.map (fun s => Op.del s.name), [])
  | P :: ps, existing, i =>
    match pickFirst P existing with
    | (some ex, rest) =>
      let s := sliceFor e P ex.name
      let r := buildResults e ps rest (i + 1)
      if samePayload s ex then (r.1, ex :: r.2) else (Op.update s :: r.1, s :: r.2)
    | (none, _) =>
      let s := sliceFor e P (freshName e i)
      let r := buildResults e ps existing (i + 1)
      (Op.create s :: r.1, s :: r.2)

/-- Modelled from the spec: Reconcile (§4.6) — when the source EndpointSet is
pending deletion nothing is written and the store is left untouched
(part_002 lines 483-499); otherwise the desired partitions are packed and
diffed against the existing slices.  The first component is the list of
store calls issued, the second the stored slices after the cycle. -/
def reconcile (e : Endpoints) (existing : List Slice) (cap : Nat) : List Op × List Slice :=
  if e.deletionPending then ([], existing)
  else buildResults e (desiredPartitions e cap) existing 0

/-- Count of endpoint addresses of a slice equal to a given IP. -/
def sliceIPCount (s : Slice) (ip : String) : Nat :=
  ((listJoinMap SliceEndpoint.addresses s.endpoints).filter (fun a => decide (a = ip))).length

/-- Well-formed port numbers: a validated EndpointSet never carries a negative
port number, so no user port can collide with the repacking sentinel. -/
def ValidPortsB (e : Endpoints) : Bool :=
  e.subsets.all (fun s => s.ports.all (fun p => decide (0 ≤ p.port)))

/-- Two partitions differ in their (port-set, family) key. -/
def KeyDiff (P Q : Partition) : Prop :=
  P.family ≠ Q.family ∨ ¬ List.Perm P.ports Q.ports

/-- Pointwise shape of a stored slice produced for a partition: its family,
ports and endpoints are the partition's, and its labels and annotations look
up exactly as the canonical mirrored maps. -/
def Shaped (e : Endpoints) (P : Partition) (s : Slice) : Prop :=
  s.addressType = P.family ∧ s.ports = P.ports
    ∧ s.endpoints = P.eps.map toSliceEndpoint
    ∧ (∀ k, lookupKV k s.labels = lookupKV k (mirroredLabels e))
    ∧ (∀ k, lookupKV k s.annotations = lookupKV k (mirroredAnnotations e))
    ∧ keyMatchB P s = true ∧ samePayload (sliceFor e P s.name) s = true

/-- Concrete test fixtures used by the witness theorems (mirroring the shapes
of the TestReconcile cases in part_002). -/
def portHttp : Port := { name := "http", port := 80, protocol := "TCP", appProtocol := none }

def portHttps : Port := { name := "https", port := 443, protocol := "UDP", appProtocol := none }

def addrW1 : EndpointAddress := { ip := "10.0.0.1", hostname := "pod-1", nodeName := none }

def addrW2 : EndpointAddress := { ip := "10.0.0.2", hostname := "pod-2", nodeName := none }

def addrBad : EndpointAddress := { ip := "not-an-ip", hostname := "pod-3", nodeName := none }

def desW1 : DesiredEndpoint :=
  { ip := "10.0.0.1", ready := true, hostname := some "pod-1", nodeName := none }

def desW2 : DesiredEndpoint :=
  { ip := "10.0.0.2", ready := true, hostname := some "pod-2", nodeName := none }

def subW : EndpointSubset :=
  { ports := [portHttp], addresses := [addrW1, addrW2], notReadyAddresses := [] }

def eW : Endpoints :=
  { name := "test-ep", labels := [("foo", "bar")]
    annotations := [(lastAppliedKey, "x"), ("foo", "bar")]
    deletionPending := false, subsets := [subW] }

def eDelW : Endpoints :=
  { name := "test-ep", labels := [], annotations := [], deletionPending := true
    subsets := [subW] }

def eInvW : Endpoints :=
  { name := "test-ep", labels := [], annotations := [], deletionPending := false
    subsets := [{ ports := [portHttp], addresses := [addrBad], notReadyAddresses := [] }] }

def partW : Partition :=
  { ports := [portHttp], family := AddressType.IPv4, eps := [desW1, desW2] }

def subM1 : EndpointSubset :=
  { ports := [portHttp], addresses := [addrW1], notReadyAddresses := [] }

def subM2 : EndpointSubset :=
  { ports := [portHttp], addresses := [addrW2], notReadyAddresses := [] }

def eMergeW : Endpoints :=
  { name := "test-ep", labels := [], annotations := [], deletionPending := false
    subsets := [subM1, subM2] }

def eTwoW : Endpoints :=
  { name := "test-ep", labels := [], annotations := [], deletionPending := false
    subsets := [{ ports := [portHttp], addresses := [addrW1], notReadyAddresses := [] },
      { ports := [portHttps], addresses := [addrW1], notReadyAddresses := [] }] }

/-! Helper lemmas about the executable primitives. -/

lemma memB_iff {α : Type} [DecidableEq α] (x : α) (l : List α) : memB x l = true ↔ x ∈ l := by
  simp [memB]

lemma lookupKV_some_mem {k v : String} : ∀ {l : List (String × String)},
    lookupKV k l = some v → k ∈ l.map Prod.fst := by
  intro l
  induction l with
  | nil => intro h; simp [lookupKV] at h
  | cons kv rest ih =>
    intro h
    by_cases hk : kv.1 = k
    · simp [hk]
    · simp only [lookupKV, if_neg hk] at h
      simp [ih h]

lemma lookupKV_not_mem {k : String} : ∀ {l : List (String × String)},
    k ∉ l.map Prod.fst → lookupKV k l = none := by
  intro l
  induction l with
  | nil => intro _; rfl
  | cons kv rest ih =>
    intro h
    simp only [List.map_cons, List.mem_cons] at h
    push_neg at h
    have hne : ¬ kv.1 = k := fun he => h.1 (Eq.symm he)
    simp only [lookupKV, if_neg hne]
    exact ih h.2

lemma mapEqB_lookup {a b : List (String × String)} (h : mapEqB a b = true) :
    ∀ k, lookupKV k a = lookupKV k b := by
  intro k
  simp only [mapEqB, List.all_eq_true, List.mem_append, decide_eq_true_eq] at h
  by_cases hka : k ∈ a.map Prod.fst
  · exact h k (Or.inl hka)
  · by_cases hkb : k ∈ b.map Prod.fst
    · exact h k (Or.inr hkb)
    · rw [lookupKV_not_mem hka, lookupKV_not_mem hkb]

lemma mapEqB_refl (a : List (String × String)) : mapEqB a a = true := by
  simp [mapEqB]

lemma lookupKV_filter_key (p : String → Bool) (k : String) :
    ∀ l : List (String × String),
      lookupKV k (l.filter (fun kv => p kv.1)) = if p k then lookupKV k l else none := by
  intro l
  induction l with
  | nil => simp [lookupKV]
  | cons kv rest ih =>
    by_cases hk : kv.1 = k
    · subst hk
      by_cases hp : p kv.1 = true
      · simp [List.filter_cons, hp, lookupKV]
      · simp [List.filter_cons, hp, lookupKV, ih]
    · by_cases hp : p kv.1 = true
      · simp [List.filter_cons, hp, lookupKV, hk, ih]
      · simp [List.filter_cons, hp, lookupKV, hk, ih]

lemma samePayload_refl (s : Slice) : samePayload s s = true := by
  simp [samePayload, mapEqB_refl]

lemma keyMatchB_canonical (e : Endpoints) (P : Partition) (nm : String) :
    keyMatchB P (sliceFor e P nm) = true := by
  simp [keyMatchB, sliceFor]

lemma samePayload_canonical (e : Endpoints) (P : Partition) (nm : String) :
    samePayload (sliceFor e P (sliceFor e P nm).name) (sliceFor e P nm) = true := by
  have h : (sliceFor e P nm).name = nm := rfl
  rw [h]
  exact samePayload_refl _

lemma samePayload_shape {a b : Slice} (h : samePayload a b = true) :
    a.addressType = b.addressType ∧ a.ports = b.ports ∧ a.endpoints = b.endpoints
      ∧ (∀ k, lookupKV k a.labels = lookupKV k b.labels)
      ∧ (∀ k, lookupKV k a.annotations = lookupKV k b.annotations) := by
  simp only [samePayload, Bool.and_eq_true, decide_eq_true_eq] at h
  exact ⟨h.1.1.1.1, h.1.1.1.2, h.1.1.2,
    mapEqB_lookup h.1.2, mapEqB_lookup h.2⟩

lemma dedupeFrom_sub {x : DesiredEndpoint} :
    ∀ {seen : List String} {l : List DesiredEndpoint}, x ∈ dedupeFrom seen l → x ∈ l := by
  intro seen l
  induction l generalizing seen with
  | nil => intro h; simp [dedupeFrom] at h
  | cons d rest ih =>
    intro h
    simp only [dedupeFrom] at h
    by_cases hm : memB d.ip seen
    · rw [if_pos hm] at h
      exact List.mem_cons_of_mem _ (ih h)
    · rw [if_neg hm] at h
      rcases List.mem_cons.1 h with h | h
      · simp [h]
      · exact List.mem_cons_of_mem _ (ih h)

lemma dedupeFrom_fresh : ∀ (seen : List String) (l : List DesiredEndpoint),
    ((dedupeFrom seen l).map DesiredEndpoint.ip).Nodup
      ∧ ∀ d ∈ dedupeFrom seen l, d.ip ∉ seen := by
  intro seen l
  induction l generalizing seen with
  | nil => simp [dedupeFrom]
  | cons d rest ih =>
    simp only [dedupeFrom]
    by_cases hm : memB d.ip seen
    · rw [if_pos hm]
      exact ih seen
    · rw [if_neg hm]
      have h2 := ih (seen ++ [d.ip])
      constructor
      · simp only [List.map_cons, List.nodup_cons]
        refine ⟨?_, h2.1⟩
        intro hin
        rcases List.mem_map.1 hin with ⟨d', hd', hip⟩
        have := h2.2 d' hd'
        simp [hip] at this
      · intro d' hd'
        rcases List.mem_cons.1 hd' with hd' | hd'
        · subst hd'
          intro hc
          exact hm ((memB_iff _ _).2 hc)
        · intro hc
          exact h2.2 d' hd' (by simp [hc])

lemma famFilter_mem {fam : AddressType} {x : DesiredEndpoint} :
    ∀ {pairs : List (EndpointAddress × Bool)}, x ∈ famFilter fam pairs →
      getAddressType x.ip = some fam ∧ ∃ y ∈ pairs, x = toDesired y.1 y.2 := by
  intro pairs
  induction pairs with
  | nil => intro h; simp [famFilter] at h
  | cons y rest ih =>
    intro h
    simp only [famFilter] at h
    by_cases hc : getAddressType y.1.ip = some fam
    · rw [if_pos hc] at h
      rcases List.mem_cons.1 h with h | h
      · subst h
        exact ⟨hc, y, by simp⟩
      · rcases ih h with ⟨h1, z, hz, he⟩
        exact ⟨h1, z, List.mem_cons_of_mem _ hz, he⟩
    · rw [if_neg hc] at h
      rcases ih h with ⟨h1, z, hz, he⟩
      exact ⟨h1, z, List.mem_cons_of_mem _ hz, he⟩

@[simp] lemma toDesired_ip (a : EndpointAddress) (r : Bool) : (toDesired a r).ip = a.ip := rfl

lemma cons_take_append {α : Type} (l : List α) (d : α) (t : List α) (n : Nat)
    (h : l.length < n) :
    l ++ (d :: t).take (n - l.length) = (l ++ [d]) ++ t.take (n - (l.length + 1)) := by
  have h1 : n - l.length = (n - (l.length + 1)) + 1 := by omega
  rw [h1, List.take_succ_cons]
  simp

lemma bstate_ext {a1 a2 b1 b2 : List DesiredEndpoint} {c1 c2 d1 d2 : List String}
    {e1 e2 : Nat} (h1 : a1 = a2) (h2 : b1 = b2) (h3 : c1 = c2) (h4 : d1 = d2)
    (h5 : e1 = e2) : BState.mk a1 b1 c1 d1 e1 = BState.mk a2 b2 c2 d2 e2 := by
  subst h1 h2 h3 h4 h5
  rfl

/-- Full characterization of the desired-state builder loop: starting from any
state, the bucket of each family grows by the capped prefix of the
de-duplicated valid addresses of that family, the seen set grows by every
newly encountered valid address, and the skip counter grows by one per
invalid address plus one per deduplicated address beyond the remaining
room. -/
lemma buildLoop_spec (cap : Nat) : ∀ (pairs : List (EndpointAddress × Bool))
    (v4 v6 : List DesiredEndpoint) (s4 s6 : List String) (k : Nat),
    buildLoop cap pairs ⟨v4, v6, s4, s6, k⟩ =
      ⟨ v4 ++ (dedupeFrom s4 (famFilter AddressType.IPv4 pairs)).take (cap - v4.length),
        v6 ++ (dedupeFrom s6 (famFilter AddressType.IPv6 pairs)).take (cap - v6.length),
        s4 ++ (dedupeFrom s4 (famFilter AddressType.IPv4 pairs)).map DesiredEndpoint.ip,
        s6 ++ (dedupeFrom s6 (famFilter AddressType.IPv6 pairs)).map DesiredEndpoint.ip,
        k + invalidCount pairs
          + ((dedupeFrom s4 (famFilter AddressType.IPv4 pairs)).length - (cap - v4.length))
          + ((dedupeFrom s6 (famFilter AddressType.IPv6 pairs)).length - (cap - v6.length)) ⟩ := by
  intro pairs
  induction pairs with
  | nil =>
    intro v4 v6 s4 s6 k
    simp [buildLoop, famFilter, dedupeFrom, invalidCount]
  | cons x rest ih =>
    intro v4 v6 s4 s6 k
    rcases h : getAddressType x.1.ip with _ | fam
    · have hf4 : famFilter AddressType.IPv4 (x :: rest) = famFilter AddressType.IPv4 rest := by
        simp [famFilter, h]
      have hf6 : famFilter AddressType.IPv6 (x :: rest) = famFilter AddressType.IPv6 rest := by
        simp [famFilter, h]
      have hic : invalidCount (x :: rest) = 1 + invalidCount rest := by
        simp [invalidCount, h]
      simp only [buildLoop, stepPair, h]
      rw [ih, hf4, hf6, hic]
      refine bstate_ext rfl rfl rfl rfl (by omega)
    · cases fam
      · have hf4 : famFilter AddressType.IPv4 (x :: rest)
            = toDesired x.1 x.2 :: famFilter AddressType.IPv4 rest := by
          simp [famFilter, h]
        have hf6 : famFilter AddressType.IPv6 (x :: rest) = famFilter AddressType.IPv6 rest := by
          simp [famFilter, h]
        have hic : invalidCount (x :: rest) = invalidCount rest := by
          simp [invalidCount, h]
        by_cases hm : memB x.1.ip s4 = true
        · have hd : dedupeFrom s4 (toDesired x.1 x.2 :: famFilter AddressType.IPv4 rest)
              = dedupeFrom s4 (famFilter AddressType.IPv4 rest) := by
            simp [dedupeFrom, hm]
          simp only [buildLoop, stepPair, h, hm, if_true]
          rw [ih, hf4, hf6, hic, hd]
        · rw [Bool.not_eq_true] at hm
          have hd : dedupeFrom s4 (toDesired x.1 x.2 :: famFilter AddressType.IPv4 rest)
              = toDesired x.1 x.2 :: dedupeFrom (s4 ++ [x.1.ip]) (famFilter AddressType.IPv4 rest) := by
            simp [dedupeFrom, hm]
          by_cases hc : v4.length < cap
          · simp only [buildLoop, stepPair, h, hm, Bool.false_eq_true, if_false]
            rw [if_pos hc, ih, hf4, hf6, hic, hd]
            refine bstate_ext ?_ rfl ?_ rfl ?_
            · rw [cons_take_append _ _ _ _ hc]
              simp
            · simp
            · simp only [List.length_cons, List.length_append, List.length_singleton, List.length_nil]
              omega
          · simp only [buildLoop, stepPair, h, hm, Bool.false_eq_true, if_false]
            rw [if_neg hc, ih, hf4, hf6, hic, hd]
            have hz : cap - v4.length = 0 := by omega
            have hz1 : cap - (v4.length + 1) = 0 := by omega
            refine bstate_ext ?_ rfl ?_ rfl ?_
            · simp only [List.length_append, List.length_singleton, hz]
              simp [hz1]
            · simp
            · simp only [List.length_cons, List.length_append, List.length_singleton, List.length_nil]
              omega
      · have hf4 : famFilter AddressType.IPv4 (x :: rest) = famFilter AddressType.IPv4 rest := by
          simp [famFilter, h]
        have hf6 : famFilter AddressType.IPv6 (x :: rest)
            = toDesired x.1 x.2 :: famFilter AddressType.IPv6 rest := by
          simp [famFilter, h]
        have hic : invalidCount (x :: rest) = invalidCount rest := by
          simp [invalidCount, h]
        by_cases hm : memB x.1.ip s6 = true
        · have hd : dedupeFrom s6 (toDesired x.1 x.2 :: famFilter AddressType.IPv6 rest)
              = dedupeFrom s6 (famFilter AddressType.IPv6 rest) := by
            simp [dedupeFrom, hm]
          simp only [buildLoop, stepPair, h, hm, if_true]
          rw [ih, hf4, hf6, hic, hd]
        · rw [Bool.not_eq_true] at hm
          have hd : dedupeFrom s6 (toDesired x.1 x.2 :: famFilter AddressType.IPv6 rest)
              = toDesired x.1 x.2 :: dedupeFrom (s6 ++ [x.1.ip]) (famFilter AddressType.IPv6 rest) := by
            simp [dedupeFrom, hm]
          by_cases hc : v6.length < cap
          · simp only [buildLoop, stepPair, h, hm, Bool.false_eq_true, if_false]
            rw [if_pos hc, ih, hf4, hf6, hic, hd]
            refine bstate_ext rfl ?_ rfl ?_ ?_
            · rw [cons_take_append _ _ _ _ hc]
              simp
            · simp
            · simp only [List.length_cons, List.length_append, List.length_singleton, List.length_nil]
              omega
          · simp only [buildLoop, stepPair, h, hm, Bool.false_eq_true, if_false]
            rw [if_neg hc, ih, hf4, hf6, hic, hd]
            have hz : cap - v6.length = 0 := by omega
            have hz1 : cap - (v6.length + 1) = 0 := by omega
            refine bstate_ext rfl ?_ rfl ?_ ?_
            · simp only [List.length_append, List.length_singleton, hz]
              simp [hz1]
            · simp
            · simp only [List.length_cons, List.length_append, List.length_singleton, List.length_nil]
              omega

lemma buildSubset_bucket (cap : Nat) (s : EndpointSubset) (fam : AddressType) :
    bucketOf (buildSubset cap s) fam = (uncappedBucket fam s).take cap := by
  cases fam <;>
    simp [buildSubset, buildLoop_spec, bucketOf, uncappedBucket]

lemma buildSubset_skipped (cap : Nat) (s : EndpointSubset) :
    (buildSubset cap s).skipped = invalidCount (subsetPairs s)
      + ((uncappedBucket AddressType.IPv4 s).length - cap)
      + ((uncappedBucket AddressType.IPv6 s).length - cap) := by
  simp [buildSubset, buildLoop_spec, uncappedBucket]

lemma subsetPartitions_mem {cap : Nat} {s : EndpointSubset} {P : Partition}
    (h : P ∈ subsetPartitions cap s) :
    P.ports = s.ports ∧ P.eps = (uncappedBucket P.family s).take cap := by
  simp only [subsetPartitions] at h
  rcases List.mem_append.1 h with h | h
  · by_cases h4 : (buildSubset cap s).v4.isEmpty
    · rw [if_pos h4] at h
      simp at h
    · rw [if_neg h4] at h
      simp only [List.mem_singleton] at h
      subst h
      refine ⟨rfl, ?_⟩
      have hb := buildSubset_bucket cap s AddressType.IPv4
      simpa [bucketOf] using hb
  · by_cases h6 : (buildSubset cap s).v6.isEmpty
    · rw [if_pos h6] at h
      simp at h
    · rw [if_neg h6] at h
      simp only [List.mem_singleton] at h
      subst h
      refine ⟨rfl, ?_⟩
      have hb := buildSubset_bucket cap s AddressType.IPv6
      simpa [bucketOf] using hb

lemma desiredPartitions_mem {e : Endpoints} {cap : Nat} {P : Partition}
    (h : P ∈ desiredPartitions e cap) :
    ∃ g ∈ repackSubsets e.subsets,
      P.ports = g.ports ∧ P.eps = (uncappedBucket P.family g).take cap := by
  simp only [desiredPartitions, listJoinMap, List.mem_flatten] at h
  rcases h with ⟨l, hl, hP⟩
  rcases List.mem_map.1 hl with ⟨g, hg, rfl⟩
  exact ⟨g, hg, (subsetPartitions_mem hP).1, (subsetPartitions_mem hP).2⟩

lemma partition_eps_length {e : Endpoints} {cap : Nat} {P : Partition}
    (h : P ∈ desiredPartitions e cap) : P.eps.length ≤ cap := by
  rcases desiredPartitions_mem h with ⟨g, _, _, heps⟩
  rw [heps]
  exact List.length_take_le cap _

lemma partition_eps_nodup {e : Endpoints} {cap : Nat} {P : Partition}
    (h : P ∈ desiredPartitions e cap) : (P.eps.map DesiredEndpoint.ip).Nodup := by
  rcases desiredPartitions_mem h with ⟨g, _, _, heps⟩
  rw [heps, List.map_take]
  have hn := (dedupeFrom_fresh [] (famFilter P.family (subsetPairs g))).1
  exact List.Nodup.sublist (List.take_sublist _ _) hn

lemma partition_eps_valid {e : Endpoints} {cap : Nat} {P : Partition}
    (h : P ∈ desiredPartitions e cap) :
    ∀ d ∈ P.eps, getAddressType d.ip = some P.family := by
  rcases desiredPartitions_mem h with ⟨g, _, _, heps⟩
  intro d hd
  rw [heps] at hd
  have hd2 := dedupeFrom_sub (List.take_subset _ _ hd)
  exact (famFilter_mem hd2).1

lemma pickFirst_cons_match {P : Partition} {s : Slice} {rest : List Slice}
    (h : keyMatchB P s = true) : pickFirst P (s :: rest) = (some s, rest) := by
  simp [pickFirst, h]

lemma pickFirst_some {P : Partition} : ∀ {l : List Slice} {ex : Slice},
    (pickFirst P l).1 = some ex → keyMatchB P ex = true := by
  intro l
  induction l with
  | nil => intro ex h; simp [pickFirst] at h
  | cons s ss ih =>
    intro ex h
    by_cases hk : keyMatchB P s = true
    · rw [pickFirst_cons_match hk] at h
      simp at h
      subst h
      exact hk
    · simp only [pickFirst, hk, Bool.false_eq_true, if_false] at h
      exact ih h

lemma buildResults_cons_some (e : Endpoints) (P : Partition) (ps : List Partition)
    (existing : List Slice) (i : Nat) {ex : Slice} {rest : List Slice}
    (hp : pickFirst P existing = (some ex, rest)) :
    buildResults e (P :: ps) existing i =
      if samePayload (sliceFor e P ex.name) ex then
        ((buildResults e ps rest (i + 1)).1, ex :: (buildResults e ps rest (i + 1)).2)
      else
        (Op.update (sliceFor e P ex.name) :: (buildResults e ps rest (i + 1)).1,
          sliceFor e P ex.name :: (buildResults e ps rest (i + 1)).2) := by
  simp only [buildResults, hp]

lemma buildResults_cons_none (e : Endpoints) (P : Partition) (ps : List Partition)
    (existing : List Slice) (i : Nat) {rest : List Slice}
    (hp : pickFirst P existing = (none, rest)) :
    buildResults e (P :: ps) existing i =
      (Op.create (sliceFor e P (freshName e i)) :: (buildResults e ps existing (i + 1)).1,
        sliceFor e P (freshName e i) :: (buildResults e ps existing (i + 1)).2) := by
  simp only [buildResults, hp]

lemma shaped_canonical (e : Endpoints) (P : Partition) (nm : String) :
    Shaped e P (sliceFor e P nm) :=
  ⟨rfl, rfl, rfl, fun _ => rfl, fun _ => rfl,
    keyMatchB_canonical e P nm, samePayload_canonical e P nm⟩

lemma shaped_of_same {e : Endpoints} {P : Partition} {ex : Slice}
    (h : samePayload (sliceFor e P ex.name) ex = true) : Shaped e P ex := by
  obtain ⟨h1, h2, h3, h4, h5⟩ := samePayload_shape h
  simp only [sliceFor] at h1 h2 h3 h4 h5
  refine ⟨h1.symm, h2.symm, h3.symm, fun k => (h4 k).symm, fun k => (h5 k).symm, ?_, h⟩
  simp [keyMatchB, h1.symm, ← h2]

lemma buildResults_shaped (e : Endpoints) : ∀ (ps : List Partition) (existing : List Slice)
    (i : Nat), List.Forall₂ (Shaped e) ps (buildResults e ps existing i).2 := by
  intro ps
  induction ps with
  | nil =>
    intro existing i
    simp only [buildResults]
    exact List.Forall₂.nil
  | cons P ps ih =>
    intro existing i
    rcases hp : pickFirst P existing with ⟨o, rest⟩
    cases o with
    | some ex =>
      rw [buildResults_cons_some e P ps existing i hp]
      by_cases hs : samePayload (sliceFor e P ex.name) ex = true
      · rw [if_pos hs]
        exact List.Forall₂.cons (shaped_of_same hs) (ih rest (i + 1))
      · rw [if_neg (by simpa using hs)]
        exact List.Forall₂.cons (shaped_canonical e P ex.name) (ih rest (i + 1))
    | none =>
      rw [buildResults_cons_none e P ps existing i hp]
      exact List.Forall₂.cons (shaped_canonical e P (freshName e i)) (ih existing (i + 1))

lemma buildResults_noop (e : Endpoints) {ps : List Partition} {slices : List Slice}
    (h : List.Forall₂ (Shaped e) ps slices) :
    ∀ i : Nat, buildResults e ps slices i = ([], slices) := by
  induction h with
  | nil => intro i; simp [buildResults]
  | @cons P s ps ss hPs hF ih =>
    intro i
    have hk : keyMatchB P s = true := hPs.2.2.2.2.2.1
    have hs0 : samePayload (sliceFor e P s.name) s = true := hPs.2.2.2.2.2.2
    rw [buildResults_cons_some e P ps (s :: ss) i (pickFirst_cons_match hk), if_pos hs0,
      ih (i + 1)]

lemma buildResults_ops (e : Endpoints) : ∀ (ps : List Partition) (existing : List Slice)
    (i : Nat) (op : Op), op ∈ (buildResults e ps existing i).1 →
      (∃ nm, op = Op.del nm)
        ∨ ∃ P ∈ ps, ∃ nm, op = Op.create (sliceFor e P nm) ∨ op = Op.update (sliceFor e P nm) := by
  intro ps
  induction ps with
  | nil =>
    intro existing i op hop
    simp only [buildResults] at hop
    rcases List.mem_map.1 hop with ⟨s, _, rfl⟩
    exact Or.inl ⟨s.name, rfl⟩
  | cons P ps ih =>
    intro existing i op hop
    rcases hp : pickFirst P existing with ⟨o, rest⟩
    cases o with
    | some ex =>
      rw [buildResults_cons_some e P ps existing i hp] at hop
      by_cases hs : samePayload (sliceFor e P ex.name) ex = true
      · rw [if_pos hs] at hop
        rcases ih rest (i + 1) op hop with h | ⟨Q, hQ, nm, h⟩
        · exact Or.inl h
        · exact Or.inr ⟨Q, List.mem_cons_of_mem _ hQ, nm, h⟩
      · rw [if_neg (by simpa using hs)] at hop
        rcases List.mem_cons.1 hop with hop | hop
        · exact Or.inr ⟨P, List.mem_cons_self _ _, ex.name, Or.inr hop⟩
        · rcases ih rest (i + 1) op hop with h | ⟨Q, hQ, nm, h⟩
          · exact Or.inl h
          · exact Or.inr ⟨Q, List.mem_cons_of_mem _ hQ, nm, h⟩
    | none =>
      rw [buildResults_cons_none e P ps existing i hp] at hop
      rcases List.mem_cons.1 hop with hop | hop
      · exact Or.inr ⟨P, List.mem_cons_self _ _, freshName e i, Or.inl hop⟩
      · rcases ih existing (i + 1) op hop with h | ⟨Q, hQ, nm, h⟩
        · exact Or.inl h
        · exact Or.inr ⟨Q, List.mem_cons_of_mem _ hQ, nm, h⟩

lemma forall2_mem_right {α β : Type} {R : α → β → Prop} :
    ∀ {l1 : List α} {l2 : List β}, List.Forall₂ R l1 l2 → ∀ {b}, b ∈ l2 → ∃ a ∈ l1, R a b := by
  intro l1 l2 h
  induction h with
  | nil => intro b hb; simp at hb
  | @cons a b l1 l2 hR hF ih =>
    intro c hc
    rcases List.mem_cons.1 hc with hc | hc
    · subst hc
      exact ⟨a, List.mem_cons_self _ _, hR⟩
    · rcases ih hc with ⟨a', ha', hr⟩
      exact ⟨a', List.mem_cons_of_mem _ ha', hr⟩

lemma dedupBy_sub {α : Type} {eqv : α → α → Bool} :
    ∀ {l acc : List α} {x : α}, x ∈ dedupBy eqv acc l → x ∈ acc ∨ x ∈ l := by
  intro l
  induction l with
  | nil =>
    intro acc x h
    simp only [dedupBy] at h
    exact Or.inl h
  | cons y rest ih =>
    intro acc x h
    simp only [dedupBy] at h
    by_cases hy : acc.any (fun z => eqv z y) = true
    · rw [if_pos hy] at h
      rcases ih h with h | h
      · exact Or.inl h
      · exact Or.inr (List.mem_cons_of_mem _ h)
    · rw [if_neg hy] at h
      rcases ih h with h | h
      · rcases List.mem_append.1 h with h | h
        · exact Or.inl h
        · simp only [List.mem_singleton] at h
          exact Or.inr (by simp [h])
      · exact Or.inr (List.mem_cons_of_mem _ h)

lemma dedupBy_pairwise {α : Type} {eqv : α → α → Bool} :
    ∀ (l acc : List α), acc.Pairwise (fun a b => eqv a b = false) →
      (dedupBy eqv acc l).Pairwise (fun a b => eqv a b = false) := by
  intro l
  induction l with
  | nil => intro acc h; exact h
  | cons y rest ih =>
    intro acc h
    simp only [dedupBy]
    by_cases hy : acc.any (fun z => eqv z y) = true
    · rw [if_pos hy]
      exact ih acc h
    · rw [if_neg hy]
      refine ih _ ?_
      rw [List.pairwise_append]
      refine ⟨h, List.pairwise_singleton _ _, ?_⟩
      intro a ha b hb
      simp only [List.mem_singleton] at hb
      subst hb
      by_contra hzz
      rw [Bool.not_eq_false] at hzz
      exact hy (List.any_eq_true.2 ⟨a, ha, hzz⟩)

lemma pairSetEq_iff {a b : List (EndpointAddress × Bool)} :
    pairSetEq a b = true ↔ (∀ x ∈ a, x ∈ b) ∧ (∀ x ∈ b, x ∈ a) := by
  simp [pairSetEq, List.all_eq_true, memB_iff]

lemma pairSetEq_refl (a : List (EndpointAddress × Bool)) : pairSetEq a a = true :=
  pairSetEq_iff.2 ⟨fun _ h => h, fun _ h => h⟩

lemma pairSetEq_symm {a b : List (EndpointAddress × Bool)} (h : pairSetEq a b = true) :
    pairSetEq b a = true := by
  rcases pairSetEq_iff.1 h with ⟨h1, h2⟩
  exact pairSetEq_iff.2 ⟨h2, h1⟩

lemma pairSetEq_trans {a b c : List (EndpointAddress × Bool)} (h1 : pairSetEq a b = true)
    (h2 : pairSetEq b c = true) : pairSetEq a c = true := by
  rcases pairSetEq_iff.1 h1 with ⟨h11, h12⟩
  rcases pairSetEq_iff.1 h2 with ⟨h21, h22⟩
  exact pairSetEq_iff.2 ⟨fun x hx => h21 x (h11 x hx), fun x hx => h12 x (h22 x hx)⟩

lemma dedupLoop_mem {α : Type} [DecidableEq α] :
    ∀ {l acc : List α} {x : α}, x ∈ dedupLoop acc l ↔ x ∈ acc ∨ x ∈ l := by
  intro l
  induction l with
  | nil =>
    intro acc x
    simp [dedupLoop]
  | cons y rest ih =>
    intro acc x
    simp only [dedupLoop]
    by_cases hy : memB y acc = true
    · rw [if_pos hy, ih]
      have hyy : y ∈ acc := (memB_iff _ _).1 hy
      constructor
      · rintro (h | h)
        · exact Or.inl h
        · exact Or.inr (List.mem_cons_of_mem _ h)
      · rintro (h | h)
        · exact Or.inl h
        · rcases List.mem_cons.1 h with h | h
          · subst h; exact Or.inl hyy
          · exact Or.inr h
    · rw [if_neg hy, ih]
      simp only [List.mem_append, List.mem_singleton, List.mem_cons]
      tauto

lemma groupKeys_elem {subsets : List EndpointSubset} {S : List (EndpointAddress × Bool)}
    (h : S ∈ groupKeys subsets) : ∃ p ∈ activePorts subsets, addrSetFor subsets p = S := by
  rcases dedupBy_sub h with h | h
  · simp at h
  · rcases List.mem_map.1 h with ⟨p, hp, rfl⟩
    exact ⟨p, hp, rfl⟩

lemma groupKeys_pairwise (subsets : List EndpointSubset) :
    (groupKeys subsets).Pairwise (fun S T => pairSetEq S T = false) :=
  dedupBy_pairwise _ _ List.Pairwise.nil

lemma allPorts_mem {subsets : List EndpointSubset} {p : Port} (h : p ∈ allPorts subsets) :
    ∃ s ∈ subsets, p ∈ subsetPorts s := by
  rcases dedupLoop_mem.1 h with h | h
  · simp at h
  · simp only [listJoinMap, List.mem_flatten] at h
    rcases h with ⟨l, hl, hp⟩
    rcases List.mem_map.1 hl with ⟨s, hs, rfl⟩
    exact ⟨s, hs, hp⟩

lemma valid_port_nonneg {e : Endpoints} (hv : ValidPortsB e = true) :
    ∀ s ∈ e.subsets, ∀ p ∈ s.ports, 0 ≤ p.port := by
  simp only [ValidPortsB, List.all_eq_true, decide_eq_true_eq] at hv
  exact hv

lemma activePort_sentinel {e : Endpoints} (hv : ValidPortsB e = true) {p : Port}
    (hp : p ∈ activePorts e.subsets) (hneg : ¬ p.port > -1) : p = sentinelPort := by
  have hp2 : p ∈ allPorts e.subsets := (List.mem_filter.1 hp).1
  rcases allPorts_mem hp2 with ⟨s, hs, hps⟩
  by_cases hse : s.ports.isEmpty
  · simp only [subsetPorts, if_pos hse, List.mem_singleton] at hps
    exact hps
  · simp only [subsetPorts, if_neg hse] at hps
    have := valid_port_nonneg hv s hs p hps
    omega

lemma groupKeys_sentinel {e : Endpoints} (hv : ValidPortsB e = true)
    {S : List (EndpointAddress × Bool)} (hS : S ∈ groupKeys e.subsets)
    (hempty : groupPorts e.subsets S = []) : addrSetFor e.subsets sentinelPort = S := by
  rcases groupKeys_elem hS with ⟨p0, hp0, hset⟩
  have hin : p0 ∈ (activePorts e.subsets).filter
      (fun p => pairSetEq (addrSetFor e.subsets p) S) := by
    refine List.mem_filter.2 ⟨hp0, ?_⟩
    rw [hset]
    exact pairSetEq_refl S
  have hneg : ¬ p0.port > -1 := by
    intro hpos
    have : p0 ∈ groupPorts e.subsets S :=
      List.mem_filter.2 ⟨hin, by simpa using hpos⟩
    rw [hempty] at this
    simp at this
  have := activePort_sentinel hv hp0 hneg
  rw [← this, hset]

lemma group_ports_sep {e : Endpoints} (hv : ValidPortsB e = true)
    {S T : List (EndpointAddress × Bool)} (hS : S ∈ groupKeys e.subsets)
    (hT : T ∈ groupKeys e.subsets) (hne : pairSetEq S T = false) :
    ¬ List.Perm (groupPorts e.subsets S) (groupPorts e.subsets T) := by
  intro hperm
  rcases hgp : groupPorts e.subsets S with _ | ⟨p, rest⟩
  · rw [hgp] at hperm
    have hTempty : groupPorts e.subsets T = [] := hperm.symm.eq_nil
    have h1 := groupKeys_sentinel hv hS hgp
    have h2 := groupKeys_sentinel hv hT hTempty
    rw [← h1, ← h2, pairSetEq_refl] at hne
    cases hne
  · have hpS : p ∈ groupPorts e.subsets S := by
      rw [hgp]
      exact List.mem_cons_self _ _
    have hpT : p ∈ groupPorts e.subsets T := hperm.mem_iff.1 hpS
    have hS2 := (List.mem_filter.1 (List.mem_filter.1 hpS).1).2
    have hT2 := (List.mem_filter.1 (List.mem_filter.1 hpT).1).2
    have : pairSetEq S T = true :=
      pairSetEq_trans (pairSetEq_symm hS2) hT2
    rw [this] at hne
    cases hne

lemma repack_pairwise {e : Endpoints} (hv : ValidPortsB e = true) :
    (repackSubsets e.subsets).Pairwise (fun g g' => ¬ List.Perm g.ports g'.ports) := by
  rw [repackSubsets, List.pairwise_map]
  have h := groupKeys_pairwise e.subsets
  refine h.imp_of_mem ?_
  intro S T hS hT hne
  exact group_ports_sep hv hS hT hne

lemma partitions_pairwise {e : Endpoints} {cap : Nat} (hv : ValidPortsB e = true) :
    (desiredPartitions e cap).Pairwise KeyDiff := by
  rw [desiredPartitions, listJoinMap, List.pairwise_flatten]
  refine ⟨?_, ?_⟩
  · intro l hl
    rcases List.mem_map.1 hl with ⟨g, hg, rfl⟩
    unfold subsetPartitions
    by_cases h4 : (buildSubset cap g).v4.isEmpty <;>
      by_cases h6 : (buildSubset cap g).v6.isEmpty <;>
        simp [h4, h6, KeyDiff]
  · rw [List.pairwise_map]
    have h := repack_pairwise hv
    refine h.imp ?_
    intro g g' hperm x hx y hy
    have hxp := (subsetPartitions_mem hx).1
    have hyp := (subsetPartitions_mem hy).1
    right
    rw [hxp, hyp]
    exact hperm

lemma keyMatch_of_shaped_false {P Q : Partition} {s : Slice} (hSh : Shaped e Q s)
    (hkd : KeyDiff P Q) : keyMatchB P s = false := by
  by_contra hcc
  rw [Bool.not_eq_false] at hcc
  simp only [keyMatchB, Bool.and_eq_true, decide_eq_true_eq] at hcc
  rcases hkd with hkd | hkd
  · exact hkd (hcc.1.symm.trans hSh.1)
  · exact hkd (hSh.2.1 ▸ hcc.2)

lemma slices_filter_unique (e : Endpoints) :
    ∀ {ps : List Partition} {slices : List Slice}, List.Forall₂ (Shaped e) ps slices →
      ps.Pairwise KeyDiff → ∀ P ∈ ps,
        (slices.filter (fun s => keyMatchB P s)).length = 1
          ∧ ∀ s ∈ slices, keyMatchB P s = true → s.endpoints = P.eps.map toSliceEndpoint := by
  intro ps slices hF
  induction hF with
  | nil =>
    intro _ P hP
    simp at hP
  | @cons Q s qs ss hQs hF2 ih =>
    intro hpw P hP
    have hpw2 := List.pairwise_cons.1 hpw
    rcases List.mem_cons.1 hP with hP | hP
    · subst hP
      have hks : keyMatchB P s = true := hQs.2.2.2.2.2.1
      have hrest : ∀ s' ∈ ss, keyMatchB P s' = false := by
        intro s' hs'
        rcases forall2_mem_right hF2 hs' with ⟨Q', hQ', hSh⟩
        exact keyMatch_of_shaped_false hSh (hpw2.1 Q' hQ')
      constructor
      · rw [List.filter_cons_of_pos hks]
        have hnil : ss.filter (fun s' => keyMatchB P s') = [] :=
          List.filter_eq_nil_iff.2 (fun a ha => by simp [hrest a ha])
        simp [hnil]
      · intro s' hs' hk'
        rcases List.mem_cons.1 hs' with hs' | hs'
        · subst hs'
          exact hQs.2.2.1
        · rw [hrest s' hs'] at hk'
          cases hk'
    · have hksf : keyMatchB P s = false :=
        keyMatch_of_shaped_false hQs (by
          rcases hpw2.1 P hP with hkd | hkd
          · exact Or.inl (fun hh => hkd hh.symm)
          · exact Or.inr (fun hh => hkd hh.symm))
      constructor
      · rw [List.filter_cons_of_neg (by simp [hksf])]
        exact (ih hpw2.2 P hP).1
      · intro s' hs' hk'
        rcases List.mem_cons.1 hs' with hs' | hs'
        · subst hs'
          rw [hksf] at hk'
          cases hk'
        · exact (ih hpw2.2 P hP).2 s' hs' hk'

lemma count_filter_one {ip : String} : ∀ {l : List String}, l.Nodup → ip ∈ l →
    (l.filter (fun a => decide (a = ip))).length = 1 := by
  intro l
  induction l with
  | nil => intro _ h; simp at h
  | cons a rest ih =>
    intro hnd hmem
    have hnd2 := List.nodup_cons.1 hnd
    by_cases ha : a = ip
    · subst ha
      rw [List.filter_cons_of_pos (by simp)]
      have hnil : rest.filter (fun b => decide (b = a)) = [] :=
        List.filter_eq_nil_iff.2 (fun b hb => by
          simp only [decide_eq_true_eq]
          intro hba
          exact hnd2.1 (hba ▸ hb))
      simp [hnil]
    · rcases List.mem_cons.1 hmem with hmem | hmem
      · exact absurd hmem.symm ha
      · rw [List.filter_cons_of_neg (by simpa using ha)]
        exact ih hnd2.2 hmem

lemma flatten_map_single (eps : List DesiredEndpoint) :
    listJoinMap SliceEndpoint.addresses (eps.map toSliceEndpoint)
      = eps.map DesiredEndpoint.ip := by
  induction eps with
  | nil => rfl
  | cons d rest ih =>
    simp only [listJoinMap, List.map_cons, List.flatten_cons] at *
    rw [ih]
    rfl

lemma sliceIPCount_canonical {P : Partition} {s : Slice}
    (hend : s.endpoints = P.eps.map toSliceEndpoint)
    (hnd : (P.eps.map DesiredEndpoint.ip).Nodup) {d : DesiredEndpoint} (hd : d ∈ P.eps) :
    sliceIPCount s d.ip = 1 := by
  rw [sliceIPCount, hend, flatten_map_single]
  exact count_filter_one hnd (List.mem_map.2 ⟨d, hd, rfl⟩)

/-- C1: for every EndpointSet, capacity and set of existing slices, every slice
payload written by Reconcile (created or updated) and every stored slice
after a reconcile cycle carries at most `capacity` endpoints.  The
deletion-pending hypothesis restricts the stored-slice conjunct to cycles
that actually reconcile; a deletion-pending cycle writes nothing (C9). -/
theorem reconcile_capacity_invariant (e : Endpoints) (existing : List Slice) (cap : Nat)
    (hd : e.deletionPending = false) :
    (∀ s : Slice, Op.create s ∈ (reconcile e existing cap).1
        ∨ Op.update s ∈ (reconcile e existing cap).1 → s.endpoints.length ≤ cap)
    ∧ ∀ s ∈ (reconcile e existing cap).2, s.endpoints.length ≤ cap := by
  simp only [reconcile, hd, Bool.false_eq_true, if_false]
  constructor
  · intro s hop
    have hshape : ∀ P ∈ desiredPartitions e cap, ∀ nm : String,
        s = sliceFor e P nm → s.endpoints.length ≤ cap := by
      intro P hP nm hs
      rw [hs]
      simp only [sliceFor, List.length_map]
      exact partition_eps_length hP
    rcases hop with hop | hop
    · rcases buildResults_ops e _ existing 0 _ hop with ⟨nm, hdel⟩ | ⟨P, hP, nm, hc | hc⟩
      · cases hdel
      · exact hshape P hP nm (Op.create.injEq _ _ ▸ hc ▸ rfl)
      · cases hc
    · rcases buildResults_ops e _ existing 0 _ hop with ⟨nm, hdel⟩ | ⟨P, hP, nm, hc | hc⟩
      · cases hdel
      · cases hc
      · exact hshape P hP nm (Op.update.injEq _ _ ▸ hc ▸ rfl)
  · intro s hs
    rcases forall2_mem_right (buildResults_shaped e _ existing 0) hs with ⟨P, hP, hSh⟩
    rw [hSh.2.2.1, List.length_map]
    exact partition_eps_length hP

/-- Witness for C1 at a concrete input. -/
theorem reconcile_capacity_invariant_witness :
    eW.deletionPending = false ∧ ∀ s ∈ (reconcile eW [] 5).2, s.endpoints.length ≤ 5 :=
  ⟨rfl, (reconcile_capacity_invariant eW [] 5 rfl).2⟩

/-- C3: no slice stored after a reconcile cycle mixes address families — every
endpoint address of every slice classifies exactly as the slice's address
type, so IPv4 and IPv6 addresses of one subset always land in separate
slices. -/
theorem reconcile_family_partition (e : Endpoints) (existing : List Slice) (cap : Nat)
    (hd : e.deletionPending = false) :
    ∀ s ∈ (reconcile e existing cap).2, ∀ ep ∈ s.endpoints, ∀ a ∈ ep.addresses,
      getAddressType a = some s.addressType := by
  simp only [reconcile, hd, Bool.false_eq_true, if_false]
  intro s hs ep hep a ha
  rcases forall2_mem_right (buildResults_shaped e _ existing 0) hs with ⟨P, hP, hSh⟩
  rw [hSh.2.2.1] at hep
  rcases List.mem_map.1 hep with ⟨d, hd2, rfl⟩
  simp only [toSliceEndpoint, List.mem_singleton] at ha
  subst ha
  rw [hSh.1]
  exact partition_eps_valid hP d hd2

/-- Witness for C3 at a concrete input. -/
theorem reconcile_family_partition_witness :
    eW.deletionPending = false
    ∧ ∀ s ∈ (reconcile eW [] 5).2, ∀ ep ∈ s.endpoints, ∀ a ∈ ep.addresses,
        getAddressType a = some s.addressType :=
  ⟨rfl, reconcile_family_partition eW [] 5 rfl⟩

/-- C4: Reconcile is idempotent — reconciling a second time against the slices
stored by the first run issues zero store operations, for every EndpointSet,
every capacity and every initial set of existing slices.  In particular,
when the existing slices already match the desired state exactly, the first
run issues only the operations needed and the second run issues none. -/
theorem reconcile_idempotent (e : Endpoints) (existing : List Slice) (cap : Nat) :
    (reconcile e (reconcile e existing cap).2 cap).1 = [] := by
  by_cases hd : e.deletionPending = true
  · simp [reconcile, hd]
  · rw [Bool.not_eq_true] at hd
    simp only [reconcile, hd, Bool.false_eq_true, if_false]
    rw [buildResults_noop e (buildResults_shaped e (desiredPartitions e cap) existing 0) 0]

/-- C5: the two excluded annotations (last-applied-configuration and
last-change-trigger-time) are absent from every slice stored after a
reconcile cycle — so they are never written, and an existing slice carrying
one is rewritten without it — while every other source annotation is
mirrored exactly. -/
theorem reconcile_excluded_keys (e : Endpoints) (existing : List Slice) (cap : Nat)
    (hd : e.deletionPending = false) :
    ∀ s ∈ (reconcile e existing cap).2,
      lookupKV lastAppliedKey s.annotations = none
      ∧ lookupKV triggerTimeKey s.annotations = none
      ∧ ∀ k, k ≠ lastAppliedKey → k ≠ triggerTimeKey →
          lookupKV k s.annotations = lookupKV k e.annotations := by
  simp only [reconcile, hd, Bool.false_eq_true, if_false]
  intro s hs
  rcases forall2_mem_right (buildResults_shaped e _ existing 0) hs with ⟨P, hP, hSh⟩
  have hann := hSh.2.2.2.2.1
  have hflt : ∀ k : String, lookupKV k (mirroredAnnotations e)
      = if (!(decide (k = lastAppliedKey)) && !(decide (k = triggerTimeKey))) then
          lookupKV k e.annotations
        else none := by
    intro k
    exact lookupKV_filter_key
      (fun x => !(decide (x = lastAppliedKey)) && !(decide (x = triggerTimeKey))) k e.annotations
  refine ⟨?_, ?_, ?_⟩
  · rw [hann, hflt]
    simp
  · rw [hann, hflt]
    simp
  · intro k h1 h2
    rw [hann, hflt]
    simp [h1, h2]

/-- Witness for C5 at a concrete input whose source carries an excluded
annotation next to an ordinary one. -/
theorem reconcile_excluded_keys_witness :
    eW.deletionPending = false
    ∧ ∀ s ∈ (reconcile eW [] 5).2,
        lookupKV lastAppliedKey s.annotations = none
        ∧ lookupKV triggerTimeKey s.annotations = none
        ∧ ∀ k, k ≠ lastAppliedKey → k ≠ triggerTimeKey →
            lookupKV k s.annotations = lookupKV k eW.annotations :=
  ⟨rfl, reconcile_excluded_keys eW [] 5 rfl⟩

/-- C9: a source EndpointSet pending deletion makes Reconcile a no-op: zero
store calls are issued and the stored slices are left exactly as they were,
regardless of the subsets the EndpointSet contains. -/
theorem reconcile_deletion_pending_noop (e : Endpoints) (existing : List Slice) (cap : Nat)
    (h : e.deletionPending = true) :
    (reconcile e existing cap).1 = [] ∧ (reconcile e existing cap).2 = existing := by
  simp [reconcile, h]

/-- Witness for C9: a deletion-pending EndpointSet with a non-empty subset and
no existing slices produces zero slices and zero store calls. -/
theorem reconcile_deletion_pending_noop_witness :
    eDelW.deletionPending = true
    ∧ (reconcile eDelW [] 1000).1 = [] ∧ (reconcile eDelW [] 1000).2 = [] :=
  ⟨rfl, (reconcile_deletion_pending_noop eDelW [] 1000 rfl).1,
    (reconcile_deletion_pending_noop eDelW [] 1000 rfl).2⟩

/-- C2: every address of the desired state — which by construction contains
exactly the valid, de-duplicated, within-cap addresses — is covered by
exactly one stored slice whose (address-family, port-set) key matches its
partition, and that slice carries the address exactly once.  Port numbers
are assumed non-negative, as guaranteed for a validated EndpointSet (the
repacking sentinel uses port number -1). -/
theorem reconcile_coverage_unique (e : Endpoints) (existing : List Slice) (cap : Nat)
    (hv : ValidPortsB e = true) (hd : e.deletionPending = false) :
    ∀ P ∈ desiredPartitions e cap, ∀ d ∈ P.eps,
      ((reconcile e existing cap).2.filter (fun s => keyMatchB P s)).length = 1
      ∧ ∀ s ∈ (reconcile e existing cap).2, keyMatchB P s = true → sliceIPCount s d.ip = 1 := by
  simp only [reconcile, hd, Bool.false_eq_true, if_false]
  intro P hP d hd2
  have hF := buildResults_shaped e (desiredPartitions e cap) existing 0
  have hpw : (desiredPartitions e cap).Pairwise KeyDiff := partitions_pairwise hv
  have hu := slices_filter_unique e hF hpw P hP
  refine ⟨hu.1, ?_⟩
  intro s hs hk
  exact sliceIPCount_canonical (hu.2 s hs hk) (partition_eps_nodup hP) hd2

/-- Witness for C2 at a concrete input: the IPv4 partition of a two-address
subset and its first desired address. -/
theorem reconcile_coverage_unique_witness :
    ValidPortsB eW = true ∧ eW.deletionPending = false
    ∧ partW ∈ desiredPartitions eW 5 ∧ desW1 ∈ partW.eps
    ∧ ((reconcile eW [] 5).2.filter (fun s => keyMatchB partW s)).length = 1
    ∧ ∀ s ∈ (reconcile eW [] 5).2, keyMatchB partW s = true → sliceIPCount s desW1.ip = 1 := by
  have h := reconcile_coverage_unique eW [] 5 (by decide) rfl partW (by decide) desW1 (by decide)
  exact ⟨by decide, rfl, by decide, by decide, h.1, h.2⟩

/-- C7: over one merged (port-set) group the builder keeps, per family,
exactly the capped prefix (`List.take cap`) of the de-duplicated valid
addresses in encounter order — ready addresses before not-ready ones, as
`subsetPairs` lays them out — and counts one skip per invalid address plus
one per de-duplicated address dropped beyond the cap: a prefix truncation,
never a sample. -/
theorem builder_cap_is_take (cap : Nat) (s : EndpointSubset) :
    (∀ fam, bucketOf (buildSubset cap s) fam = (uncappedBucket fam s).take cap)
    ∧ (buildSubset cap s).skipped = invalidCount (subsetPairs s)
      + ((uncappedBucket AddressType.IPv4 s).length - cap)
      + ((uncappedBucket AddressType.IPv6 s).length - cap) :=
  ⟨buildSubset_bucket cap s, buildSubset_skipped cap s⟩

lemma famFilter_eq_nil {fam : AddressType} :
    ∀ {pairs : List (EndpointAddress × Bool)},
      (∀ x ∈ pairs, ¬ getAddressType x.1.ip = some fam) → famFilter fam pairs = [] := by
  intro pairs
  induction pairs with
  | nil => intro _; rfl
  | cons x rest ih =>
    intro h
    simp only [famFilter, if_neg (h x (List.mem_cons_self _ _))]
    exact ih (fun y hy => h y (List.mem_cons_of_mem _ hy))

lemma famFilter_filter_valid (fam : AddressType) :
    ∀ pairs : List (EndpointAddress × Bool),
      famFilter fam (pairs.filter (fun x => (getAddressType x.1.ip).isSome))
        = famFilter fam pairs := by
  intro pairs
  induction pairs with
  | nil => rfl
  | cons x rest ih =>
    by_cases h : (getAddressType x.1.ip).isSome = true
    · have hf : (x :: rest).filter (fun y => (getAddressType y.1.ip).isSome)
          = x :: rest.filter (fun y => (getAddressType y.1.ip).isSome) := by
        simp [List.filter_cons, h]
      rw [hf]
      simp only [famFilter]
      rw [ih]
    · have hf : (x :: rest).filter (fun y => (getAddressType y.1.ip).isSome)
          = rest.filter (fun y => (getAddressType y.1.ip).isSome) := by
        simp [List.filter_cons, h]
      rw [hf]
      have hnone : getAddressType x.1.ip = none := by
        rcases hh : getAddressType x.1.ip with _ | f
        · rfl
        · rw [hh] at h
          simp at h
      rw [ih]
      simp [famFilter, hnone]

lemma invalidCount_eq_length :
    ∀ {pairs : List (EndpointAddress × Bool)},
      (∀ x ∈ pairs, getAddressType x.1.ip = none) → invalidCount pairs = pairs.length := by
  intro pairs
  induction pairs with
  | nil => intro _; rfl
  | cons x rest ih =>
    intro h
    simp only [invalidCount, if_pos (h x (List.mem_cons_self _ _)), List.length_cons,
      ih (fun y hy => h y (List.mem_cons_of_mem _ hy))]
    omega

lemma upsertPair_addr {acc : List (EndpointAddress × Bool)} {z : EndpointAddress × Bool} :
    ∀ {y}, y ∈ upsertPair acc z → (∃ w ∈ acc, w.1 = y.1) ∨ y = z := by
  intro y h
  unfold upsertPair at h
  by_cases ha : acc.any (fun w => decide (w.1 = z.1)) = true
  · rw [if_pos ha] at h
    rcases List.mem_map.1 h with ⟨w, hw, rfl⟩
    by_cases hwz : w.1 = z.1
    · exact Or.inl ⟨w, hw, by simp [hwz]⟩
    · exact Or.inl ⟨w, hw, by simp [hwz]⟩
  · rw [if_neg ha] at h
    rcases List.mem_append.1 h with h | h
    · exact Or.inl ⟨y, h, rfl⟩
    · simp only [List.mem_singleton] at h
      exact Or.inr h

lemma upsertPair_keeps {acc : List (EndpointAddress × Bool)} (z : EndpointAddress × Bool)
    {w : EndpointAddress × Bool} (hw : w ∈ acc) : ∃ y ∈ upsertPair acc z, y.1 = w.1 := by
  unfold upsertPair
  by_cases ha : acc.any (fun v => decide (v.1 = z.1)) = true
  · rw [if_pos ha]
    refine ⟨if w.1 = z.1 then (w.1, z.2) else w, List.mem_map.2 ⟨w, hw, rfl⟩, ?_⟩
    by_cases hwz : w.1 = z.1 <;> simp [hwz]
  · rw [if_neg ha]
    exact ⟨w, List.mem_append_left _ hw, rfl⟩

lemma upsertPair_new (acc : List (EndpointAddress × Bool)) (z : EndpointAddress × Bool) :
    ∃ y ∈ upsertPair acc z, y.1 = z.1 := by
  unfold upsertPair
  by_cases ha : acc.any (fun v => decide (v.1 = z.1)) = true
  · rw [if_pos ha]
    rcases List.any_eq_true.1 ha with ⟨w, hw, hwz⟩
    rw [decide_eq_true_eq] at hwz
    refine ⟨(w.1, z.2), List.mem_map.2 ⟨w, hw, by simp [hwz]⟩, hwz⟩
  · rw [if_neg ha]
    exact ⟨z, List.mem_append_right _ (List.mem_singleton.2 rfl), rfl⟩

lemma collectLoop_addr :
    ∀ {l acc : List (EndpointAddress × Bool)} {x}, x ∈ collectLoop acc l →
      (∃ y ∈ acc, y.1 = x.1) ∨ ∃ y ∈ l, y.1 = x.1 := by
  intro l
  induction l with
  | nil =>
    intro acc x h
    simp only [collectLoop] at h
    exact Or.inl ⟨x, h, rfl⟩
  | cons z rest ih =>
    intro acc x h
    simp only [collectLoop] at h
    rcases ih h with h2 | h2
    · rcases h2 with ⟨y, hy, hyx⟩
      rcases upsertPair_addr hy with ⟨w, hw, hwy⟩ | hyz
      · exact Or.inl ⟨w, hw, hwy.trans hyx⟩
      · exact Or.inr ⟨z, List.mem_cons_self _ _, hyz ▸ hyx⟩
    · rcases h2 with ⟨y, hy, hyx⟩
      exact Or.inr ⟨y, List.mem_cons_of_mem _ hy, hyx⟩

lemma collectLoop_keeps :
    ∀ {l acc : List (EndpointAddress × Bool)} {w}, w ∈ acc →
      ∃ y ∈ collectLoop acc l, y.1 = w.1 := by
  intro l
  induction l with
  | nil =>
    intro acc w hw
    exact ⟨w, hw, rfl⟩
  | cons z rest ih =>
    intro acc w hw
    rcases upsertPair_keeps z hw with ⟨y, hy, hyw⟩
    rcases ih hy with ⟨y2, hy2, hy2y⟩
    exact ⟨y2, hy2, hy2y.trans hyw⟩

lemma collectLoop_covers :
    ∀ {l acc : List (EndpointAddress × Bool)} {x}, x ∈ l →
      ∃ y ∈ collectLoop acc l, y.1 = x.1 := by
  intro l
  induction l with
  | nil =>
    intro acc x h
    simp at h
  | cons z rest ih =>
    intro acc x h
    rcases List.mem_cons.1 h with h | h
    · subst h
      rcases upsertPair_new acc x with ⟨y, hy, hyx⟩
      rcases @collectLoop_keeps rest _ _ hy with ⟨y2, hy2, hy2y⟩
      exact ⟨y2, hy2, hy2y.trans hyx⟩
    · exact ih h

lemma subsetPairs_addr {s : EndpointSubset} {x : EndpointAddress × Bool}
    (h : x ∈ subsetPairs s) : x.1 ∈ s.addresses ∨ x.1 ∈ s.notReadyAddresses := by
  rcases List.mem_append.1 h with h | h <;>
    rcases List.mem_map.1 h with ⟨a, ha, rfl⟩ <;> simp [ha]

lemma repack_subset_addrs {subsets : List EndpointSubset} {g : EndpointSubset}
    (hg : g ∈ repackSubsets subsets) {x : EndpointAddress × Bool} (hx : x ∈ subsetPairs g) :
    ∃ su ∈ subsets, x.1 ∈ su.addresses ∨ x.1 ∈ su.notReadyAddresses := by
  simp only [repackSubsets, List.mem_map] at hg
  rcases hg with ⟨S, hS, rfl⟩
  have hxS : ∃ y ∈ S, y.1 = x.1 := by
    rcases List.mem_append.1 hx with hx | hx <;>
      rcases List.mem_map.1 hx with ⟨a, ha, rfl⟩ <;>
        rcases List.mem_map.1 ha with ⟨y, hy, rfl⟩
    · exact ⟨y, (List.mem_filter.1 hy).1, rfl⟩
    · exact ⟨y, (List.mem_filter.1 hy).1, rfl⟩
  rcases hxS with ⟨y, hyS, hyx⟩
  rcases groupKeys_elem hS with ⟨p, _, hset⟩
  rw [← hset] at hyS
  rcases collectLoop_addr hyS with ⟨w, hw, hwy⟩ | ⟨w, hw, hwy⟩
  · simp at hw
  · simp only [listJoinMap, List.mem_flatten] at hw
    rcases hw with ⟨l, hl, hwl⟩
    rcases List.mem_map.1 hl with ⟨su, hsu, rfl⟩
    have hsu2 : su ∈ subsets := List.mem_of_mem_filter hsu
    rcases subsetPairs_addr hwl with ha | ha
    · exact ⟨su, hsu2, Or.inl (by rw [← hwy.trans hyx]; exact ha)⟩
    · exact ⟨su, hsu2, Or.inr (by rw [← hwy.trans hyx]; exact ha)⟩

lemma map_congr_mem {α β : Type} {f g : α → β} :
    ∀ {l : List α}, (∀ a ∈ l, f a = g a) → l.map f = l.map g := by
  intro l
  induction l with
  | nil => intro _; rfl
  | cons a rest ih =>
    intro h
    simp only [List.map_cons, h a (List.mem_cons_self _ _),
      ih (fun b hb => h b (List.mem_cons_of_mem _ hb))]

lemma all_invalid_partitions {e : Endpoints} {cap : Nat}
    (hall : ∀ su ∈ e.subsets, ∀ ad ∈ su.addresses ++ su.notReadyAddresses,
      getAddressType ad.ip = none) :
    desiredPartitions e cap = [] := by
  have hg : ∀ g ∈ repackSubsets e.subsets, subsetPartitions cap g = [] := by
    intro g hg
    have hpairs : ∀ x ∈ subsetPairs g, getAddressType x.1.ip = none := by
      intro x hx
      rcases repack_subset_addrs hg hx with ⟨su, hsu, ha | ha⟩
      · exact hall su hsu x.1 (List.mem_append_left _ ha)
      · exact hall su hsu x.1 (List.mem_append_right _ ha)
    have hbucket : ∀ fam, uncappedBucket fam g = [] := by
      intro fam
      rw [uncappedBucket, famFilter_eq_nil (fun x hx => by rw [hpairs x hx]; simp)]
      rfl
    have h4 : (buildSubset cap g).v4 = [] := by
      have hb := buildSubset_bucket cap g AddressType.IPv4
      rw [hbucket] at hb
      simpa [bucketOf] using hb
    have h6 : (buildSubset cap g).v6 = [] := by
      have hb := buildSubset_bucket cap g AddressType.IPv6
      rw [hbucket] at hb
      simpa [bucketOf] using hb
    simp [subsetPartitions, h4, h6]
  simp only [desiredPartitions, listJoinMap]
  rw [map_congr_mem hg]
  simp

/-- C6: invalid address strings never surface in any stored slice; a cycle
whose addresses are all invalid stores nothing, issues zero store calls and
counts one skip per address; and the per-family buckets the builder packs
are exactly those obtained after first removing every invalid address, so
the remaining valid addresses are packed unaffected.  The model's Reconcile
is a total function, so an invalid address can never fail a cycle. -/
theorem reconcile_invalid_addresses_dropped (e : Endpoints) (existing : List Slice) (cap : Nat)
    (hd : e.deletionPending = false) :
    (∀ s ∈ (reconcile e existing cap).2, ∀ ep ∈ s.endpoints, ∀ a ∈ ep.addresses,
        (getAddressType a).isSome = true)
    ∧ ((∀ su ∈ e.subsets, ∀ ad ∈ su.addresses ++ su.notReadyAddresses,
          getAddressType ad.ip = none) →
        reconcile e [] cap = ([], [])
        ∧ skippedCount e cap
            = ((repackSubsets e.subsets).map (fun g => (subsetPairs g).length)).sum)
    ∧ ∀ fam (g : EndpointSubset), bucketOf (buildSubset cap g) fam
        = bucketOf (buildLoop cap ((subsetPairs g).filter
            (fun x => (getAddressType x.1.ip).isSome)) ⟨[], [], [], [], 0⟩) fam := by
  refine ⟨?_, ?_, ?_⟩
  · intro s hs ep hep a ha
    rw [reconcile_family_partition e existing cap hd s hs ep hep a ha]
    rfl
  · intro hall
    constructor
    · simp [reconcile, hd, all_invalid_partitions hall, buildResults]
    · rw [skippedCount]
      congr 1
      refine map_congr_mem ?_
      intro g hg
      have hpairs : ∀ x ∈ subsetPairs g, getAddressType x.1.ip = none := by
        intro x hx
        rcases repack_subset_addrs hg hx with ⟨su, hsu, ha | ha⟩
        · exact hall su hsu x.1 (List.mem_append_left _ ha)
        · exact hall su hsu x.1 (List.mem_append_right _ ha)
      have hbucket : ∀ fam, uncappedBucket fam g = [] := by
        intro fam
        rw [uncappedBucket, famFilter_eq_nil (fun x hx => by rw [hpairs x hx]; simp)]
        rfl
      rw [buildSubset_skipped, hbucket, hbucket, invalidCount_eq_length hpairs]
      simp
  · intro fam g
    cases fam <;>
      simp [buildLoop_spec, buildSubset, bucketOf, famFilter_filter_valid]

/-- Witness for C6: a single all-invalid subset yields zero slices, zero store
calls and one skip. -/
theorem reconcile_invalid_addresses_dropped_witness :
    eInvW.deletionPending = false
    ∧ (∀ su ∈ eInvW.subsets, ∀ ad ∈ su.addresses ++ su.notReadyAddresses,
        getAddressType ad.ip = none)
    ∧ reconcile eInvW [] 1000 = ([], [])
    ∧ skippedCount eInvW 1000
        = ((repackSubsets eInvW.subsets).map (fun g => (subsetPairs g).length)).sum := by
  have h := (reconcile_invalid_addresses_dropped eInvW [] 1000 rfl).2.1 (by decide)
  exact ⟨rfl, by decide, h.1, h.2⟩

lemma subsetPorts_of_ne {s : EndpointSubset} (h : s.ports ≠ []) : subsetPorts s = s.ports := by
  simp [subsetPorts, List.isEmpty_iff, h]

lemma upsertPair_ne_nil (acc : List (EndpointAddress × Bool)) (z : EndpointAddress × Bool) :
    upsertPair acc z ≠ [] := by
  unfold upsertPair
  by_cases ha : acc.any (fun w => decide (w.1 = z.1)) = true
  · rw [if_pos ha]
    rcases List.any_eq_true.1 ha with ⟨w, hw, _⟩
    intro hnil
    rw [List.map_eq_nil_iff] at hnil
    rw [hnil] at hw
    simp at hw
  · rw [if_neg ha]
    simp

lemma collectLoop_ne_nil : ∀ {l acc : List (EndpointAddress × Bool)},
    acc ≠ [] ∨ l ≠ [] → collectLoop acc l ≠ [] := by
  intro l
  induction l with
  | nil =>
    intro acc h
    rcases h with h | h
    · exact h
    · exact absurd rfl h
  | cons z rest ih =>
    intro acc _
    simp only [collectLoop]
    exact ih (Or.inl (upsertPair_ne_nil acc z))

lemma dedupBy_singleton_eq {α : Type} {eqv : α → α → Bool} {S0 : α}
    (hrefl : eqv S0 S0 = true) :
    ∀ {l : List α}, (∀ x ∈ l, x = S0) → dedupBy eqv [S0] l = [S0] := by
  intro l
  induction l with
  | nil => intro _; rfl
  | cons y rest ih =>
    intro h
    have hy : y = S0 := h y (List.mem_cons_self _ _)
    subst hy
    simp only [dedupBy]
    rw [if_pos (by simp [hrefl])]
    exact ih (fun x hx => h x (List.mem_cons_of_mem _ hx))

lemma dedupBy_head_eq {α : Type} {eqv : α → α → Bool} {S0 : α}
    (hrefl : eqv S0 S0 = true) :
    ∀ {l : List α}, (∀ x ∈ l, x = S0) → l ≠ [] → dedupBy eqv [] l = [S0] := by
  intro l hall hne
  cases l with
  | nil => exact absurd rfl hne
  | cons y rest =>
    have hy : y = S0 := hall y (List.mem_cons_self _ _)
    subst hy
    simp only [dedupBy]
    rw [if_neg (by simp), List.nil_append]
    exact dedupBy_singleton_eq hrefl (fun x hx => hall x (List.mem_cons_of_mem _ hx))

lemma addrSetFor_two_both {s1 s2 : EndpointSubset} {p : Port}
    (h1 : memB p (subsetPorts s1) = true) (h2 : memB p (subsetPorts s2) = true) :
    addrSetFor [s1, s2] p = collectPairs (subsetPairs s1 ++ subsetPairs s2) := by
  simp [addrSetFor, List.filter_cons, h1, h2, listJoinMap]

lemma addrSetFor_two_left {s1 s2 : EndpointSubset} {p : Port}
    (h1 : memB p (subsetPorts s1) = true) (h2 : memB p (subsetPorts s2) = false) :
    addrSetFor [s1, s2] p = collectPairs (subsetPairs s1) := by
  simp [addrSetFor, List.filter_cons, h1, h2, listJoinMap]

lemma addrSetFor_two_right {s1 s2 : EndpointSubset} {p : Port}
    (h1 : memB p (subsetPorts s1) = false) (h2 : memB p (subsetPorts s2) = true) :
    addrSetFor [s1, s2] p = collectPairs (subsetPairs s2) := by
  simp [addrSetFor, List.filter_cons, h1, h2, listJoinMap]

lemma allPorts_two_mem {s1 s2 : EndpointSubset} {p : Port} (h : p ∈ allPorts [s1, s2]) :
    p ∈ subsetPorts s1 ∨ p ∈ subsetPorts s2 := by
  rcases dedupLoop_mem.1 h with h | h
  · simp at h
  · simp only [listJoinMap, List.map_cons, List.map_nil, List.flatten_cons, List.flatten_nil,
      List.append_nil, List.mem_append] at h
    exact h

lemma allPorts_two_mem_rev {s1 s2 : EndpointSubset} {p : Port}
    (h : p ∈ subsetPorts s1 ∨ p ∈ subsetPorts s2) : p ∈ allPorts [s1, s2] := by
  refine dedupLoop_mem.2 (Or.inr ?_)
  simp only [listJoinMap, List.map_cons, List.map_nil, List.flatten_cons, List.flatten_nil,
    List.append_nil, List.mem_append]
  exact h

lemma famFilter_ne_nil {fam : AddressType} :
    ∀ {pairs : List (EndpointAddress × Bool)}, pairs ≠ [] →
      (∀ x ∈ pairs, getAddressType x.1.ip = some fam) → famFilter fam pairs ≠ [] := by
  intro pairs hne hall
  cases pairs with
  | nil => exact absurd rfl hne
  | cons x rest =>
    simp only [famFilter, if_pos (hall x (List.mem_cons_self _ _))]
    simp

lemma dedupeFrom_nil_ne_nil {l : List DesiredEndpoint} (h : l ≠ []) :
    dedupeFrom [] l ≠ [] := by
  cases l with
  | nil => exact absurd rfl h
  | cons d rest =>
    simp only [dedupeFrom]
    rw [if_neg (by simp [memB])]
    simp

lemma take_ne_nil_of_pos {α : Type} {l : List α} {n : Nat} (hn : 1 ≤ n) (h : l ≠ []) :
    l.take n ≠ [] := by
  cases l with
  | nil => exact absurd rfl h
  | cons a rest =>
    cases n with
    | zero => omega
    | succ m =>
      rw [List.take_succ_cons]
      simp

lemma mem_subsetPairs_group {q : List Port} {S : List (EndpointAddress × Bool)}
    {y : EndpointAddress × Bool} (hy : y ∈ S) :
    ∃ z ∈ subsetPairs (EndpointSubset.mk q ((S.filter (fun x => x.2)).map Prod.fst)
      ((S.filter (fun x => !x.2)).map Prod.fst)), z.1 = y.1 := by
  cases hb : y.2
  · refine ⟨(y.1, false), ?_, rfl⟩
    refine List.mem_append_right _ ?_
    exact List.mem_map.2 ⟨y.1, List.mem_map.2 ⟨y, List.mem_filter.2 ⟨hy, by simp [hb]⟩, rfl⟩, rfl⟩
  · refine ⟨(y.1, true), ?_, rfl⟩
    refine List.mem_append_left _ ?_
    exact List.mem_map.2 ⟨y.1, List.mem_map.2 ⟨y, List.mem_filter.2 ⟨hy, by simp [hb]⟩, rfl⟩, rfl⟩

lemma buildResults_length (e : Endpoints) (ps : List Partition) (existing : List Slice)
    (i : Nat) : (buildResults e ps existing i).2.length = ps.length :=
  (List.Forall₂.length_eq (buildResults_shaped e ps existing i)).symm

/-- C8: two subsets with the identical (non-empty) port list are merged into a
single repacked group before partitioning — the repacked state has exactly
one subset and it carries every address of both subsets — and when all their
addresses are valid, same-family and the cap allows it, reconciling from an
empty store yields exactly one slice rather than one per subset. -/
theorem repack_merges_identical_ports (e : Endpoints) (cap : Nat) (ps : List Port)
    (s1 s2 : EndpointSubset) (hsub : e.subsets = [s1, s2]) (h1 : s1.ports = ps)
    (h2 : s2.ports = ps) (hne : ps ≠ [])
    (hnp : subsetPairs s1 ++ subsetPairs s2 ≠ []) (hd : e.deletionPending = false) :
    (repackSubsets e.subsets).length = 1
    ∧ (∀ g ∈ repackSubsets e.subsets, ∀ x ∈ subsetPairs s1 ++ subsetPairs s2,
        ∃ y ∈ subsetPairs g, y.1 = x.1)
    ∧ ((∀ x ∈ subsetPairs s1 ++ subsetPairs s2, getAddressType x.1.ip = some AddressType.IPv4) →
        1 ≤ cap → (reconcile e [] cap).2.length = 1) := by
  have hsp1 : subsetPorts s1 = ps := by
    rw [subsetPorts_of_ne (by rw [h1]; exact hne)]
    exact h1
  have hsp2 : subsetPorts s2 = ps := by
    rw [subsetPorts_of_ne (by rw [h2]; exact hne)]
    exact h2
  have haddr : ∀ p ∈ allPorts [s1, s2],
      addrSetFor [s1, s2] p = collectPairs (subsetPairs s1 ++ subsetPairs s2) := by
    intro p hp
    have hpps : p ∈ ps := by
      rcases allPorts_two_mem hp with h | h
      · rw [hsp1] at h; exact h
      · rw [hsp2] at h; exact h
    have hm1 : memB p (subsetPorts s1) = true := by
      rw [hsp1]; exact (memB_iff _ _).2 hpps
    have hm2 : memB p (subsetPorts s2) = true := by
      rw [hsp2]; exact (memB_iff _ _).2 hpps
    exact addrSetFor_two_both hm1 hm2
  have hS0ne : collectPairs (subsetPairs s1 ++ subsetPairs s2) ≠ [] :=
    collectLoop_ne_nil (Or.inr hnp)
  have hact : activePorts [s1, s2] = allPorts [s1, s2] := by
    rw [activePorts]
    refine List.filter_eq_self.2 ?_
    intro p hp
    rw [haddr p hp]
    simp [List.isEmpty_iff, hS0ne]
  have hmapconst : ∀ x ∈ (activePorts [s1, s2]).map (addrSetFor [s1, s2]),
      x = collectPairs (subsetPairs s1 ++ subsetPairs s2) := by
    intro x hx
    rcases List.mem_map.1 hx with ⟨p, hp, rfl⟩
    rw [hact] at hp
    exact haddr p hp
  have hapne : activePorts [s1, s2] ≠ [] := by
    rcases List.exists_mem_of_ne_nil ps hne with ⟨p, hp⟩
    have : p ∈ allPorts [s1, s2] := allPorts_two_mem_rev (Or.inl (by rw [hsp1]; exact hp))
    rw [hact]
    exact List.ne_nil_of_mem this
  have hgk : groupKeys [s1, s2] = [collectPairs (subsetPairs s1 ++ subsetPairs s2)] := by
    rw [groupKeys]
    refine dedupBy_head_eq (pairSetEq_refl _) hmapconst ?_
    intro hmn
    rw [List.map_eq_nil_iff] at hmn
    exact hapne hmn
  have hrepack : repackSubsets [s1, s2]
      = [EndpointSubset.mk (groupPorts [s1, s2] (collectPairs (subsetPairs s1 ++ subsetPairs s2)))
          (((collectPairs (subsetPairs s1 ++ subsetPairs s2)).filter (fun x => x.2)).map Prod.fst)
          (((collectPairs (subsetPairs s1 ++ subsetPairs s2)).filter (fun x => !x.2)).map Prod.fst)] := by
    rw [repackSubsets, hgk]
    rfl
  rw [hsub]
  refine ⟨by rw [hrepack]; rfl, ?_, ?_⟩
  · intro g hg x hx
    rw [hrepack] at hg
    simp only [List.mem_singleton] at hg
    subst hg
    rcases @collectLoop_covers _ [] _ hx with ⟨y, hyS, hyx⟩
    rcases mem_subsetPairs_group hyS with ⟨z, hz, hzy⟩
    exact ⟨z, hz, hzy.trans hyx⟩
  · intro hIPv4 hcap
    have hgpairs : ∀ z ∈ subsetPairs (EndpointSubset.mk
        (groupPorts [s1, s2] (collectPairs (subsetPairs s1 ++ subsetPairs s2)))
        (((collectPairs (subsetPairs s1 ++ subsetPairs s2)).filter (fun x => x.2)).map Prod.fst)
        (((collectPairs (subsetPairs s1 ++ subsetPairs s2)).filter (fun x => !x.2)).map Prod.fst)),
        getAddressType z.1.ip = some AddressType.IPv4 := by
      intro z hz
      have hzS : ∃ y ∈ collectPairs (subsetPairs s1 ++ subsetPairs s2), y.1 = z.1 := by
        rcases List.mem_append.1 hz with hz | hz <;>
          rcases List.mem_map.1 hz with ⟨a, ha, rfl⟩ <;>
            rcases List.mem_map.1 ha with ⟨y, hy, rfl⟩
        · exact ⟨y, (List.mem_filter.1 hy).1, rfl⟩
        · exact ⟨y, (List.mem_filter.1 hy).1, rfl⟩
      rcases hzS with ⟨y, hyS, hyz⟩
      rcases collectLoop_addr hyS with ⟨w, hw, _⟩ | ⟨w, hw, hwy⟩
      · simp at hw
      · have := hIPv4 w hw
        rw [← hyz, ← hwy]
        exact this
    have hp0ne : subsetPairs (EndpointSubset.mk
        (groupPorts [s1, s2] (collectPairs (subsetPairs s1 ++ subsetPairs s2)))
        (((collectPairs (subsetPairs s1 ++ subsetPairs s2)).filter (fun x => x.2)).map Prod.fst)
        (((collectPairs (subsetPairs s1 ++ subsetPairs s2)).filter (fun x => !x.2)).map Prod.fst)) ≠ [] := by
      rcases List.exists_mem_of_ne_nil _ hnp with ⟨x0, hx0⟩
      rcases @collectLoop_covers _ [] _ hx0 with ⟨y, hyS, _⟩
      rcases mem_subsetPairs_group hyS with ⟨z, hz, _⟩
      exact List.ne_nil_of_mem hz
    have hv4ne : (buildSubset cap (EndpointSubset.mk
        (groupPorts [s1, s2] (collectPairs (subsetPairs s1 ++ subsetPairs s2)))
        (((collectPairs (subsetPairs s1 ++ subsetPairs s2)).filter (fun x => x.2)).map Prod.fst)
        (((collectPairs (subsetPairs s1 ++ subsetPairs s2)).filter (fun x => !x.2)).map Prod.fst))).v4 ≠ [] := by
      have hb := buildSubset_bucket cap (EndpointSubset.mk
        (groupPorts [s1, s2] (collectPairs (subsetPairs s1 ++ subsetPairs s2)))
        (((collectPairs (subsetPairs s1 ++ subsetPairs s2)).filter (fun x => x.2)).map Prod.fst)
        (((collectPairs (subsetPairs s1 ++ subsetPairs s2)).filter (fun x => !x.2)).map Prod.fst))
        AddressType.IPv4
      simp only [bucketOf] at hb
      rw [hb]
      refine take_ne_nil_of_pos hcap ?_
      rw [uncappedBucket]
      exact dedupeFrom_nil_ne_nil (famFilter_ne_nil hp0ne hgpairs)
    have hv6nil : (buildSubset cap (EndpointSubset.mk
        (groupPorts [s1, s2] (collectPairs (subsetPairs s1 ++ subsetPairs s2)))
        (((collectPairs (subsetPairs s1 ++ subsetPairs s2)).filter (fun x => x.2)).map Prod.fst)
        (((collectPairs (subsetPairs s1 ++ subsetPairs s2)).filter (fun x => !x.2)).map Prod.fst))).v6 = [] := by
      have hb := buildSubset_bucket cap (EndpointSubset.mk
        (groupPorts [s1, s2] (collectPairs (subsetPairs s1 ++ subsetPairs s2)))
        (((collectPairs (subsetPairs s1 ++ subsetPairs s2)).filter (fun x => x.2)).map Prod.fst)
        (((collectPairs (subsetPairs s1 ++ subsetPairs s2)).filter (fun x => !x.2)).map Prod.fst))
        AddressType.IPv6
      simp only [bucketOf] at hb
      rw [hb, uncappedBucket, famFilter_eq_nil]
      · simp [dedupeFrom]
      · intro x hx
        rw [hgpairs x hx]
        simp
    simp only [reconcile, hd, Bool.false_eq_true, if_false]
    rw [buildResults_length]
    simp only [desiredPartitions, listJoinMap, hsub, hrepack, List.map_cons, List.map_nil,
      List.flatten_cons, List.flatten_nil, List.append_nil]
    simp [subsetPartitions, List.isEmpty_iff, hv4ne, hv6nil]

/-- Witness for C8: two subsets sharing the single http port with different
addresses reconcile to exactly one slice. -/
theorem repack_merges_identical_ports_witness :
    eMergeW.subsets = [subM1, subM2] ∧ subM1.ports = [portHttp] ∧ subM2.ports = [portHttp]
    ∧ ([portHttp] : List Port) ≠ [] ∧ subsetPairs subM1 ++ subsetPairs subM2 ≠ []
    ∧ eMergeW.deletionPending = false
    ∧ (repackSubsets eMergeW.subsets).length = 1
    ∧ (∀ x ∈ subsetPairs subM1 ++ subsetPairs subM2,
        getAddressType x.1.ip = some AddressType.IPv4)
    ∧ (reconcile eMergeW [] 1000).2.length = 1 := by
  have h := repack_merges_identical_ports eMergeW 1000 [portHttp] subM1 subM2 rfl rfl rfl
    (by decide) (by decide) rfl
  exact ⟨rfl, rfl, rfl, by decide, by decide, rfl, h.1, by decide,
    h.2.2 (by decide) (by decide)⟩

/-- C10: when the same address appears in two subsets with different
(non-empty) port lists, the repacking groups both subsets' ports together,
so reconciling from an empty store produces a single slice containing that
address exactly once, not one slice per port signature. -/
theorem reconcile_same_address_two_subsets (e : Endpoints) (cap : Nat)
    (ps1 ps2 : List Port) (a : EndpointAddress) (fam : AddressType)
    (hsub : e.subsets = [EndpointSubset.mk ps1 [a] [], EndpointSubset.mk ps2 [a] []])
    (h1 : ps1 ≠ []) (h2 : ps2 ≠ []) (hps : ps1 ≠ ps2)
    (hfam : getAddressType a.ip = some fam) (hcap : 1 ≤ cap)
    (hd : e.deletionPending = false) :
    (reconcile e [] cap).2.length = 1
    ∧ ∀ s ∈ (reconcile e [] cap).2, sliceIPCount s a.ip = 1 := by
  have hp1 : subsetPairs (EndpointSubset.mk ps1 [a] []) = [(a, true)] := by
    simp [subsetPairs]
  have hp2 : subsetPairs (EndpointSubset.mk ps2 [a] []) = [(a, true)] := by
    simp [subsetPairs]
  have hsp1 : subsetPorts (EndpointSubset.mk ps1 [a] []) = ps1 := subsetPorts_of_ne h1
  have hsp2 : subsetPorts (EndpointSubset.mk ps2 [a] []) = ps2 := subsetPorts_of_ne h2
  have hcol1 : collectPairs [(a, true)] = [(a, true)] := by
    simp [collectPairs, collectLoop, upsertPair]
  have hcol2 : collectPairs ([(a, true)] ++ [(a, true)]) = [(a, true)] := by
    simp [collectPairs, collectLoop, upsertPair]
  have haddr : ∀ p ∈ allPorts [EndpointSubset.mk ps1 [a] [], EndpointSubset.mk ps2 [a] []],
      addrSetFor [EndpointSubset.mk ps1 [a] [], EndpointSubset.mk ps2 [a] []] p
        = [(a, true)] := by
    intro p hp
    by_cases hm1 : memB p (subsetPorts (EndpointSubset.mk ps1 [a] [])) = true <;>
      by_cases hm2 : memB p (subsetPorts (EndpointSubset.mk ps2 [a] [])) = true
    · rw [addrSetFor_two_both hm1 hm2, hp1, hp2, hcol2]
    · rw [addrSetFor_two_left hm1 (by simpa using hm2), hp1, hcol1]
    · rw [addrSetFor_two_right (by simpa using hm1) hm2, hp2, hcol1]
    · exfalso
      rcases allPorts_two_mem hp with h | h
      · exact hm1 ((memB_iff _ _).2 h)
      · exact hm2 ((memB_iff _ _).2 h)
  have hact : activePorts [EndpointSubset.mk ps1 [a] [], EndpointSubset.mk ps2 [a] []]
      = allPorts [EndpointSubset.mk ps1 [a] [], EndpointSubset.mk ps2 [a] []] := by
    rw [activePorts]
    refine List.filter_eq_self.2 ?_
    intro p hp
    rw [haddr p hp]
    simp
  have hmapconst : ∀ x ∈ (activePorts
        [EndpointSubset.mk ps1 [a] [], EndpointSubset.mk ps2 [a] []]).map
      (addrSetFor [EndpointSubset.mk ps1 [a] [], EndpointSubset.mk ps2 [a] []]),
      x = [(a, true)] := by
    intro x hx
    rcases List.mem_map.1 hx with ⟨p, hp, rfl⟩
    rw [hact] at hp
    exact haddr p hp
  have hapne : activePorts [EndpointSubset.mk ps1 [a] [], EndpointSubset.mk ps2 [a] []]
      ≠ [] := by
    rcases List.exists_mem_of_ne_nil ps1 h1 with ⟨p, hp⟩
    have hmem : p ∈ allPorts [EndpointSubset.mk ps1 [a] [], EndpointSubset.mk ps2 [a] []] :=
      allPorts_two_mem_rev (Or.inl (by rw [hsp1]; exact hp))
    rw [hact]
    exact List.ne_nil_of_mem hmem
  have hgk : groupKeys [EndpointSubset.mk ps1 [a] [], EndpointSubset.mk ps2 [a] []]
      = [[(a, true)]] := by
    rw [groupKeys]
    refine dedupBy_head_eq (pairSetEq_refl _) hmapconst ?_
    intro hmn
    rw [List.map_eq_nil_iff] at hmn
    exact hapne hmn
  have hrepack : repackSubsets [EndpointSubset.mk ps1 [a] [], EndpointSubset.mk ps2 [a] []]
      = [EndpointSubset.mk
          (groupPorts [EndpointSubset.mk ps1 [a] [], EndpointSubset.mk ps2 [a] []] [(a, true)])
          [a] []] := by
    rw [repackSubsets, hgk]
    simp [List.filter]
  have hgp : subsetPairs (EndpointSubset.mk
      (groupPorts [EndpointSubset.mk ps1 [a] [], EndpointSubset.mk ps2 [a] []] [(a, true)])
      [a] []) = [(a, true)] := by
    simp [subsetPairs]
  have hbucket : ∀ fam', bucketOf (buildSubset cap (EndpointSubset.mk
      (groupPorts [EndpointSubset.mk ps1 [a] [], EndpointSubset.mk ps2 [a] []] [(a, true)])
      [a] [])) fam' = if fam' = fam then [toDesired a true] else [] := by
    intro fam'
    rw [buildSubset_bucket, uncappedBucket, hgp]
    by_cases hf : fam' = fam
    · subst hf
      rw [if_pos rfl]
      have hff : famFilter fam' [(a, true)] = [toDesired a true] := by
        simp [famFilter, hfam]
      rw [hff]
      have hdd : dedupeFrom [] [toDesired a true] = [toDesired a true] := by
        simp [dedupeFrom, memB]
      rw [hdd]
      exact List.take_of_length_le (by simp [hcap])
    · rw [if_neg hf]
      have hff : famFilter fam' [(a, true)] = [] := by
        have hne' : ¬ (fam = fam') := fun hh => hf hh.symm
        simp [famFilter, hfam, hne']
      rw [hff]
      simp [dedupeFrom]
  have hparts : desiredPartitions e cap
      = [Partition.mk
          (groupPorts [EndpointSubset.mk ps1 [a] [], EndpointSubset.mk ps2 [a] []] [(a, true)])
          fam [toDesired a true]] := by
    simp only [desiredPartitions, listJoinMap, hsub, hrepack, List.map_cons, List.map_nil,
      List.flatten_cons, List.flatten_nil, List.append_nil]
    have h4 := hbucket AddressType.IPv4
    have h6 := hbucket AddressType.IPv6
    simp only [bucketOf] at h4 h6
    cases fam
    · rw [if_pos rfl] at h4
      rw [if_neg (by simp)] at h6
      simp [subsetPartitions, h4, h6]
    · rw [if_neg (by simp)] at h4
      rw [if_pos rfl] at h6
      simp [subsetPartitions, h4, h6]
  constructor
  · simp only [reconcile, hd, Bool.false_eq_true, if_false]
    rw [buildResults_length, hparts]
    rfl
  · intro s hs
    simp only [reconcile, hd, Bool.false_eq_true, if_false] at hs
    rcases forall2_mem_right (buildResults_shaped e _ [] 0) hs with ⟨P, hP, hSh⟩
    rw [hparts] at hP
    simp only [List.mem_singleton] at hP
    subst hP
    have hcount := sliceIPCount_canonical hSh.2.2.1 (by simp)
      (show toDesired a true ∈ [toDesired a true] from List.mem_singleton.2 rfl)
    simpa using hcount

/-- Witness for C10: one address offered on http in one subset and https in
another reconciles to a single slice holding the address once. -/
theorem reconcile_same_address_two_subsets_witness :
    eTwoW.subsets
      = [EndpointSubset.mk [portHttp] [addrW1] [], EndpointSubset.mk [portHttps] [addrW1] []]
    ∧ ([portHttp] : List Port) ≠ [] ∧ ([portHttps] : List Port) ≠ []
    ∧ ([portHttp] : List Port) ≠ [portHttps]
    ∧ getAddressType addrW1.ip = some AddressType.IPv4
    ∧ eTwoW.deletionPending = false
    ∧ (reconcile eTwoW [] 1000).2.length = 1
    ∧ ∀ s ∈ (reconcile eTwoW [] 1000).2, sliceIPCount s addrW1.ip = 1 := by
  have h := reconcile_same_address_two_subsets eTwoW 1000 [portHttp] [portHttps] addrW1
    AddressType.IPv4 rfl (by decide) (by decide) (by decide) (by decide) (by decide) rfl
  exact ⟨rfl, by decide, by decide, by decide, by decide, rfl, h.1, h.2⟩

/-! Sanity checks evaluating the model on inputs shaped like TestReconcile
cases of src/unnamed/part_002. -/

example : (reconcile eW [] 1000).1.length = 1 ∧ (reconcile eW [] 1000).2.length = 1 := by
  decide

example : (reconcile eMergeW [] 1000).1.length = 1
    ∧ (reconcile eMergeW [] 1000).2.length = 1 := by
  decide

example : (reconcile eInvW [] 1000).2.length = 0 ∧ (reconcile eInvW [] 1000).1.length = 0
    ∧ skippedCount eInvW 1000 = 1 := by
  decide

example : skippedCount eW 1 = 1 ∧ (reconcile eW [] 1).2.length = 1
    ∧ ∀ s ∈ (reconcile eW [] 1).2, s.endpoints.length = 1 := by
  decide

example : getAddressType (String.mk [dotChar]) = none := by decide
